import Mathlib

/-!
Verification development for the simple-dhcpd DHCPv4 server.

The definitions below are a shallow embedding of the C++ sources:
  - src/src/simple-dhcpd/core/parser.cpp   (wire codec: DhcpParser)
  - src/src/lease_manager.cpp              (lease engine: LeaseManager)
  - src/src/dhcp_security_manager.cpp      (security validator)
  - src/src/dhcp_server.cpp                (protocol handler helpers)
with the data types of src/include/dhcp_types.hpp and the inline helpers of
include/dhcp_utils.hpp.

Machine integers are modelled as Nat with explicit reductions mod 2^32 (or
mod 256) exactly where the C++ unsigned arithmetic can wrap.  Byte buffers
are List Nat; offset-indexed reads of the C++ code are modelled by operating
on the remaining suffix of the buffer.  chrono time points are Int seconds.
Fallible C++ code (functions that throw) returns Except.
-/

set_option maxRecDepth 40000

deriving instance DecidableEq for Except

namespace SimpleDhcpd

/-! ## Association lists

std::map with string/byte keys is modelled as an association list with unique
keys.  operator[]-assignment is insert-or-replace; erase removes the key. -/

def lookupA {α β : Type} [DecidableEq α] : List (α × β) → α → Option β
  | [], _ => none
  | p :: rest, k => if p.1 = k then some p.2 else lookupA rest k

def insertA {α β : Type} [DecidableEq α] : List (α × β) → α → β → List (α × β)
  | [], k, v => [(k, v)]
  | p :: rest, k, v => if p.1 = k then (k, v) :: rest else p :: insertA rest k v

def eraseA {α β : Type} [DecidableEq α] (l : List (α × β)) (k : α) : List (α × β) :=
  l.filter (fun p => ¬ p.1 = k)

/-! ## Byte-order helpers

ntohl/htonl from arpa/inet.h on a little-endian host: both are the 32-bit
byte swap.  IPv4 addresses (IpAddress = uint32_t) are stored in network byte
order throughout the sources; the allocation loop converts with ntohl/htonl. -/

def byteswap32 (x : Nat) : Nat :=
  (x % 256) * 16777216 + (x / 256 % 256) * 65536 + (x / 65536 % 256) * 256 +
    (x / 16777216 % 256)

def ntohl (x : Nat) : Nat := byteswap32 x

def htonl (x : Nat) : Nat := byteswap32 x

/-! ## Wire codec data model (dhcp_types.hpp)

struct DhcpMessageHeader is __attribute__((packed)) and contains, after the
236 bytes of fixed BOOTP fields, a uint8_t options[312] member, so
sizeof(DhcpMessageHeader) = 548.  parse_header/generate_header memcpy the
whole struct, so the header is modelled as its raw byte image. -/

def header_size : Nat := 548

structure DhcpOption where
  code : Nat
  length : Nat
  data : List Nat
deriving DecidableEq, Repr

structure DhcpMessage where
  header : List Nat
  options : List DhcpOption
  message_type : Nat
  client_mac : List Nat
  client_ip : Nat
  server_ip : Nat
  relay_ip : Nat
deriving DecidableEq, Repr

/-- Constructors named after the throw sites of DhcpParserException in
core/parser.cpp. -/
inductive DhcpParserError where
  | messageTooShort
  | missingMessageType
  | messageTooLarge
deriving DecidableEq, Repr

def magic_cookie : List Nat := [99, 130, 83, 99]

/-- Little-endian read of a 32-bit field, as memcpy of the packed struct does
on a little-endian host. -/
def u32le (bs : List Nat) : Nat :=
  bs.getD 0 0 + 256 * bs.getD 1 0 + 65536 * bs.getD 2 0 + 16777216 * bs.getD 3 0

/-! ## DhcpParser (core/parser.cpp)

parse_option reads at an offset into the buffer; here the buffer suffix from
that offset is passed.  A none result is the thrown DhcpParserException
("Unexpected end of data" / "Option data extends beyond message"), which
parse_options catches to break its loop. -/

def parse_option : List Nat → Option (DhcpOption × List Nat)
  | [] => none
  | c :: rest =>
    if c = 255 then some (⟨255, 0, []⟩, rest)
    else if c = 0 then some (⟨0, 0, []⟩, rest)
    else
      match rest with
      | [] => none
      | l :: rest2 =>
        if rest2.length < l then none
        else some (⟨c, l, rest2.take l⟩, rest2.drop l)

/-- The while loop of parse_options: push each parsed option, stop at END,
break (returning what was accumulated) when parse_option throws.  The loop
consumes at least one byte per iteration, so fuel = length of the remaining
bytes + 1 never runs out. -/
def parse_options_loop : Nat → List Nat → List DhcpOption
  | 0, _ => []
  | _ + 1, [] => []
  | fuel + 1, bytes =>
    match parse_option bytes with
    | none => []
    | some (o, rest) =>
      if o.code = 255 then [o]
      else o :: parse_options_loop fuel rest

def parse_options (data : List Nat) : List DhcpOption :=
  if data.length < header_size then []
  else
    let rest := data.drop header_size
    let rest2 := if rest.take 4 = magic_cookie then rest.drop 4 else rest
    parse_options_loop (rest2.length + 1) rest2

def find_option (options : List DhcpOption) (code : Nat) : Option DhcpOption :=
  options.find? (fun o => o.code = code)

def extract_mac_address (header : List Nat) : List Nat :=
  (header.drop 28).take 6

def extract_ip_address (header : List Nat) : Nat :=
  u32le (header.drop 12)

def parse_message (data : List Nat) : Except DhcpParserError DhcpMessage :=
  if data.length < header_size then .error .messageTooShort
  else
    let header := data.take header_size
    let options := parse_options data
    match find_option options 53 with
    | some o =>
      if o.length = 1 then
        .ok
          { header := header
            options := options
            message_type := o.data.getD 0 0
            client_mac := extract_mac_address header
            client_ip := extract_ip_address header
            server_ip := u32le (header.drop 20)
            relay_ip := u32le (header.drop 24) }
      else .error .missingMessageType
    | none => .error .missingMessageType

def validate_message (m : DhcpMessage) : Bool :=
  if m.header.getD 0 0 ≠ 1 ∧ m.header.getD 0 0 ≠ 2 then false
  else if m.header.getD 1 0 ≠ 1 then false
  else if m.header.getD 2 0 ≠ 6 then false
  else
    match find_option m.options 53 with
    | none => false
    | some o => if o.length ≠ 1 then false else true

/-- generate_option writes the code byte, the length byte, then memcpy's
option.length bytes from option.data (defined behaviour requires
data.size() ≥ length, in which case this is data.take length). -/
def generate_option_bytes (o : DhcpOption) : List Nat :=
  o.code :: o.length :: o.data.take o.length

/-- The options loop of generate_options, threading the running offset for
the "Message too large" bound check of generate_option. -/
def generate_options_loop : List DhcpOption → Nat → Except DhcpParserError (List Nat)
  | [], _ => .ok []
  | o :: rest, off =>
    if 1500 < off + 2 + o.length then .error .messageTooLarge
    else
      match generate_options_loop rest (off + 2 + o.length) with
      | .ok tail => .ok (generate_option_bytes o ++ tail)
      | .error e => .error e

def emitted_length (options : List DhcpOption) : Nat :=
  (options.map (fun o => 2 + o.length)).sum

def needs_end_option (options : List DhcpOption) : Bool :=
  match options.getLast? with
  | none => true
  | some o => o.code ≠ 255

/-- generate_options: magic cookie (written with no bound check), each
option, then an END option appended when the list is empty or does not end
in END. -/
def generate_options (options : List DhcpOption) (off : Nat) :
    Except DhcpParserError (List Nat) :=
  match generate_options_loop options (off + 4) with
  | .error e => .error e
  | .ok body =>
    if needs_end_option options then
      if 1500 < off + 4 + emitted_length options + 2 then .error .messageTooLarge
      else .ok (magic_cookie ++ body ++ [255, 0])
    else .ok (magic_cookie ++ body)

/-- generate_message: memcpy the 548-byte header struct, then the options
stream; the vector is resized to the final offset, so the result is exactly
the emitted bytes.  (The header bound check offset + 548 > 1500 is dead at
offset 0.) -/
def generate_message (m : DhcpMessage) : Except DhcpParserError (List Nat) :=
  match generate_options m.options header_size with
  | .ok opts => .ok (m.header ++ opts)
  | .error e => .error e

/-! ## Lease engine data model (dhcp_types.hpp, dhcp_utils.hpp)

std::chrono::system_clock::time_point is modelled as Int seconds since the
epoch; std::chrono::seconds(d) with d an uint32 value adds d as-is (the
chrono representation is 64-bit and cannot wrap here).  MAC addresses are
6-byte lists. -/

structure DhcpLease where
  mac_address : List Nat
  ip_address : Nat
  hostname : String
  lease_start : Int
  lease_end : Int
  renewal_time : Int
  rebinding_time : Int
  is_static : Bool
  is_active : Bool
deriving DecidableEq, Repr

/-- Default-constructed DhcpLease (ip 0, inactive), the value behind a
default shared_ptr slot. -/
def default_lease : DhcpLease :=
  { mac_address := []
    ip_address := 0
    hostname := ""
    lease_start := 0
    lease_end := 0
    renewal_time := 0
    rebinding_time := 0
    is_static := false
    is_active := false }

instance : Inhabited DhcpLease := ⟨default_lease⟩

structure DhcpSubnet where
  name : String
  network : Nat
  prefix_length : Nat
  range_start : Nat
  range_end : Nat
  gateway : Nat
  dns_servers : List Nat
  domain_name : String
  lease_time : Nat
  max_lease_time : Nat
  reservations : List (List Nat × DhcpLease)
  exclusions : List (Nat × Nat)
deriving DecidableEq, Repr

structure DhcpConfig where
  listen_addresses : List String
  subnets : List DhcpSubnet
  lease_file : String
  enable_logging : Bool
  enable_security : Bool
  max_leases : Nat
deriving DecidableEq, Repr

/-- dhcp_utils.hpp calculate_lease_end: start_time + seconds(lease_duration). -/
def calculate_lease_end (start_time : Int) (lease_duration : Nat) : Int :=
  start_time + (lease_duration : Int)

/-- dhcp_utils.hpp calculate_renewal_time: start_time + seconds(lease_duration / 2),
uint32 division. -/
def calculate_renewal_time (start_time : Int) (lease_duration : Nat) : Int :=
  start_time + ((lease_duration / 2 : Nat) : Int)

/-- dhcp_utils.hpp calculate_rebinding_time:
start_time + seconds((lease_duration * 7) / 8).  lease_duration is uint32_t,
so the product wraps mod 2^32 before the division. -/
def calculate_rebinding_time (start_time : Int) (lease_duration : Nat) : Int :=
  start_time + (((lease_duration * 7) % 4294967296 / 8 : Nat) : Int)

/-! ## LeaseManager (lease_manager.cpp)

The two indices leases_by_mac_ / leases_by_ip_ are std::map's of shared_ptr
to the same lease object; shared_ptr identity is modelled with a heap (list
of leases) addressed by index, the maps holding indices.  Exceptions leave
the store untouched, so every operation returns the (possibly unchanged)
store. -/

structure LeaseStore where
  byMac : List (List Nat × Nat)
  byIp : List (Nat × Nat)
  heap : List DhcpLease
deriving DecidableEq, Repr

def empty_store : LeaseStore := ⟨[], [], []⟩

/-- Constructors named after the throw sites of LeaseManagerException. -/
inductive LeaseManagerError where
  | requestedIpNotAvailable
  | noAvailableIp
  | subnetNotFound
  | noLeaseForMac
  | leaseNotActive
  | ipMismatch
deriving DecidableEq, Repr

def get_subnet_by_name (config : DhcpConfig) (name : String) : Option DhcpSubnet :=
  config.subnets.find? (fun s => s.name = name)

def is_ip_in_range (ip : Nat) (subnet : DhcpSubnet) : Bool :=
  ntohl subnet.range_start ≤ ntohl ip ∧ ntohl ip ≤ ntohl subnet.range_end

def is_ip_excluded (ip : Nat) (subnet : DhcpSubnet) : Bool :=
  subnet.exclusions.any (fun e => ntohl e.1 ≤ ntohl ip ∧ ntohl ip ≤ ntohl e.2)

/-- is_ip_available: false when the IP has an active lease, when it is out of
the subnet range, or when it is excluded.  none models the
"Subnet not found" throw of get_subnet_by_name. -/
def is_ip_available (config : DhcpConfig) (st : LeaseStore) (ip : Nat)
    (subnet_name : String) : Option Bool :=
  let leased :=
    match lookupA st.byIp ip with
    | some i => (st.heap.getD i default_lease).is_active
    | none => false
  if leased then some false
  else
    match get_subnet_by_name config subnet_name with
    | none => none
    | some subnet =>
      if ¬ is_ip_in_range ip subnet then some false
      else if is_ip_excluded ip subnet then some false
      else some true

/-- find_available_ip: scan the host-order range ntohl(range_start) ..
ntohl(range_end) in ascending order; skip IPs present in leases_by_ip_
(mere map presence) and excluded IPs; return the first survivor in network
order.  none models the "No available IP addresses" throw. -/
def find_available_ip (subnet : DhcpSubnet) (st : LeaseStore) : Option Nat :=
  let s := ntohl subnet.range_start
  let e := ntohl subnet.range_end
  ((List.range' s (e + 1 - s)).find? (fun ip =>
      lookupA st.byIp (htonl ip) = none ∧ is_ip_excluded (htonl ip) subnet = false)).map htonl

/-- add_lease: a fresh shared_ptr (new heap cell) is stored under both keys
(std::map operator[] assignment, insert-or-replace). -/
def add_lease (st : LeaseStore) (lease : DhcpLease) : LeaseStore :=
  { byMac := insertA st.byMac lease.mac_address st.heap.length
    byIp := insertA st.byIp lease.ip_address st.heap.length
    heap := st.heap ++ [lease] }

/-- remove_lease: erase the lease's own mac and ip keys from the two maps;
the heap cell (shared_ptr target) survives. -/
def remove_lease (st : LeaseStore) (lease : DhcpLease) : LeaseStore :=
  { st with
    byMac := eraseA st.byMac lease.mac_address
    byIp := eraseA st.byIp lease.ip_address }

/-- allocate_lease.  An existing active lease for the MAC is returned
unconditionally; otherwise the subnet is looked up, the IP is the requested
one (checked with is_ip_available) or the first free one, and a fresh
dynamic active lease is created and added. -/
def allocate_lease (config : DhcpConfig) (st : LeaseStore) (mac_address : List Nat)
    (requested_ip : Nat) (subnet_name : String) (now : Int) :
    Except LeaseManagerError (DhcpLease × LeaseStore) :=
  let existing :=
    match lookupA st.byMac mac_address with
    | some i =>
      let l := st.heap.getD i default_lease
      if l.is_active then some l else none
    | none => none
  match existing with
  | some l => .ok (l, st)
  | none =>
    match get_subnet_by_name config subnet_name with
    | none => .error .subnetNotFound
    | some subnet =>
      let ipRes : Except LeaseManagerError Nat :=
        if requested_ip = 0 then
          match find_available_ip subnet st with
          | some ip => .ok ip
          | none => .error .noAvailableIp
        else
          match is_ip_available config st requested_ip subnet_name with
          | some true => .ok requested_ip
          | some false => .error .requestedIpNotAvailable
          | none => .error .subnetNotFound
      match ipRes with
      | .error e => .error e
      | .ok ip_to_allocate =>
        let lease : DhcpLease :=
          { mac_address := mac_address
            ip_address := ip_to_allocate
            hostname := ""
            lease_start := now
            lease_end := calculate_lease_end now subnet.lease_time
            renewal_time := calculate_renewal_time now subnet.lease_time
            rebinding_time := calculate_rebinding_time now subnet.lease_time
            is_static := false
            is_active := true }
        .ok (lease, add_lease st lease)

/-- renew_lease: requires an active lease for the MAC with matching IP;
recomputes the times from config_.subnets[0].lease_time and mutates the
shared lease object in place (both maps see the update). -/
def renew_lease (config : DhcpConfig) (st : LeaseStore) (mac_address : List Nat)
    (ip_address : Nat) (now : Int) :
    Except LeaseManagerError (DhcpLease × LeaseStore) :=
  match lookupA st.byMac mac_address with
  | none => .error .noLeaseForMac
  | some i =>
    let l := st.heap.getD i default_lease
    if ¬ l.is_active then .error .leaseNotActive
    else if l.ip_address ≠ ip_address then .error .ipMismatch
    else
      match config.subnets.head? with
      | none => .error .subnetNotFound
      | some subnet =>
        let l' :=
          { l with
            lease_start := now
            lease_end := calculate_lease_end now subnet.lease_time
            renewal_time := calculate_renewal_time now subnet.lease_time
            rebinding_time := calculate_rebinding_time now subnet.lease_time }
        .ok (l', { st with heap := st.heap.set i l' })

/-- release_lease: false (and no change) when the MAC has no lease or the IP
does not match; otherwise deactivate the shared object and erase it from
both maps. -/
def release_lease (st : LeaseStore) (mac_address : List Nat) (ip_address : Nat) :
    Bool × LeaseStore :=
  match lookupA st.byMac mac_address with
  | none => (false, st)
  | some i =>
    let l := st.heap.getD i default_lease
    if l.ip_address ≠ ip_address then (false, st)
    else
      let l' := { l with is_active := false }
      (true, remove_lease { st with heap := st.heap.set i l' } l')

/-- One removal step of the reaper body: deactivate the shared object and
erase its keys. -/
def expire_one (st : LeaseStore) (i : Nat) : LeaseStore :=
  let l := st.heap.getD i default_lease
  let l' := { l with is_active := false }
  remove_lease { st with heap := st.heap.set i l' } l'

/-- One sweep of cleanup_expired_leases: collect the active leases with
now > lease_end from leases_by_mac_, then deactivate and remove each. -/
def cleanup_expired_leases (st : LeaseStore) (now : Int) : LeaseStore :=
  let expired := (st.byMac.filter (fun p =>
      let l := st.heap.getD p.2 default_lease
      l.is_active ∧ now > l.lease_end)).map (fun p => p.2)
  expired.foldl expire_one st

/-- The lease-store operations of the claim: allocation, renewal, release
and expiry removal, each tagged with the wall-clock instant at which it
runs. -/
inductive LeaseOp where
  | allocate (mac : List Nat) (requested_ip : Nat) (subnet_name : String) (now : Int)
  | renew (mac : List Nat) (ip : Nat) (now : Int)
  | release (mac : List Nat) (ip : Nat)
  | expire (now : Int)
deriving DecidableEq, Repr

def apply_op (config : DhcpConfig) (st : LeaseStore) : LeaseOp → LeaseStore
  | .allocate mac rip sn now =>
    match allocate_lease config st mac rip sn now with
    | .ok r => r.2
    | .error _ => st
  | .renew mac ip now =>
    match renew_lease config st mac ip now with
    | .ok r => r.2
    | .error _ => st
  | .release mac ip => (release_lease st mac ip).2
  | .expire now => cleanup_expired_leases st now

def run_ops (config : DhcpConfig) (ops : List LeaseOp) : LeaseStore :=
  ops.foldl (apply_op config) empty_store

/-! ## Security validator (dhcp_security_manager.cpp)

Rate limiting and client authentication.  Strings stay String; time points
are Int seconds; durations Int seconds. -/

structure RateLimitRule where
  identifier : String
  identifier_type : String
  max_requests : Nat
  time_window : Int
  block_duration : Int
  expires : Int
  enabled : Bool
deriving DecidableEq, Repr

structure ClientCredentials where
  password_hash : String
  salt : String
  enabled : Bool
  expires : Int
deriving DecidableEq, Repr

structure SecurityState where
  rate_limit_rules : List RateLimitRule
  rate_limit_trackers : List (String × List Int)
  authentication_enabled : Bool
  authentication_key : String
  client_credentials : List (String × ClientCredentials)
deriving DecidableEq, Repr

/-- check_rate_limit.  The first enabled rule with matching type whose
identifier is the given one or "*" applies; no rule or an expired rule
allows.  The tracker for identifier_type:identifier is pruned of timestamps
strictly older than the window, then the request is denied when the retained
count reaches max_requests, else recorded and allowed. -/
def check_rate_limit (st : SecurityState) (identifier : String)
    (identifier_type : String) (now : Int) : Bool × SecurityState :=
  match st.rate_limit_rules.find? (fun r =>
      r.enabled ∧ r.identifier_type = identifier_type ∧
        (r.identifier = identifier ∨ r.identifier = "*")) with
  | none => (true, st)
  | some rule =>
    if rule.expires < now then (true, st)
    else
      let tracker_key := identifier_type ++ ":" ++ identifier
      let tracker := (lookupA st.rate_limit_trackers tracker_key).getD []
      let cutoff_time := now - rule.time_window
      let kept := tracker.filter (fun t => ¬ t < cutoff_time)
      if rule.max_requests ≤ kept.length then
        (false, { st with
          rate_limit_trackers := insertA st.rate_limit_trackers tracker_key kept })
      else
        (true, { st with
          rate_limit_trackers :=
            insertA st.rate_limit_trackers tracker_key (kept ++ [now]) })

/-- The hex digit table "0123456789abcdef" of generate_auth_hash, as ASCII
codes. -/
def hex_char (n : Nat) : Nat :=
  if n < 10 then 48 + n else 87 + n

/-- Hex-encode a byte buffer the way both generate_auth_hash and
validate_auth_hash do: high nibble then low nibble per byte. -/
def hex_encode : List Nat → List Nat
  | [] => []
  | b :: rest => hex_char (b / 16 % 16) :: hex_char (b % 16) :: hex_encode rest

/-- ::tolower in the C locale, applied bytewise. -/
def to_lower_ascii (l : List Nat) : List Nat :=
  l.map (fun b => if 65 ≤ b ∧ b ≤ 90 then b + 32 else b)

/-- generate_auth_hash: empty key yields the empty string; otherwise the
HMAC-SHA256 digest of client_mac + ":" + to_string(seconds) under the key,
rendered as lowercase hex.  The OpenSSL call
HMAC(EVP_sha256(), key, msg) is an external library function; it is passed
in as the parameter hmac (key → message → 32 digest bytes). -/
def generate_auth_hash (hmac : String → String → List Nat)
    (authentication_key : String) (client_mac : String) (timestamp : Int) :
    List Nat :=
  if authentication_key = "" then []
  else
    let message := client_mac ++ ":" ++ toString timestamp
    hex_encode (hmac authentication_key message)

/-- validate_auth_hash: compare the provided data with the expected hex
digest; 32 raw bytes are hex-encoded first, anything else is treated as hex
text and lowercased. -/
def validate_auth_hash (hmac : String → String → List Nat)
    (authentication_key : String) (client_mac : String) (auth_data : List Nat)
    (timestamp : Int) : Bool :=
  if authentication_key = "" then false
  else
    let expected_hex := generate_auth_hash hmac authentication_key client_mac timestamp
    if expected_hex = [] then false
    else
      let provided_hex :=
        if auth_data.length = 32 then hex_encode auth_data
        else to_lower_ascii auth_data
      provided_hex = expected_hex

/-- validate_client_authentication: passes everything when authentication is
disabled; fails when the client has no / disabled / expired credentials or
empty auth data; otherwise accepts when the HMAC matches at one of the
offsets 0, -60, +60 seconds from now. -/
def validate_client_authentication (hmac : String → String → List Nat)
    (st : SecurityState) (client_mac : String) (auth_data : List Nat)
    (now : Int) : Bool :=
  if ¬ st.authentication_enabled then true
  else
    match lookupA st.client_credentials client_mac with
    | none => false
    | some credentials =>
      if ¬ credentials.enabled then false
      else if credentials.expires < now then false
      else if auth_data = [] then false
      else
        ([0, -60, 60] : List Int).any (fun offset =>
          validate_auth_hash hmac st.authentication_key client_mac auth_data
            (now + offset))

/-! ## Protocol handler option building (dhcp_server.cpp) -/

/-- build_lease_options: options 51/58/59 are emitted as four bytes
(0,0,0,v) where v is the uint8_t cast (mod 256) of the uint32 seconds value.
The DhcpOption(code, data) constructor sets length = data.size(). -/
def build_lease_options (_lease : DhcpLease) (subnet : DhcpSubnet) :
    List DhcpOption :=
  [ ⟨51, 4, [0, 0, 0, subnet.lease_time % 256]⟩,
    ⟨58, 4, [0, 0, 0, subnet.lease_time / 2 % 256]⟩,
    ⟨59, 4, [0, 0, 0, subnet.lease_time * 7 % 4294967296 / 8 % 256]⟩ ]

/-! ## Derived predicates used by the statements -/

/-- Big-endian 32-bit value of a 4-byte option payload (the wire encoding
of options 51/58/59 per RFC 2132). -/
def u32be (bs : List Nat) : Nat :=
  16777216 * bs.getD 0 0 + 65536 * bs.getD 1 0 + 256 * bs.getD 2 0 + bs.getD 3 0

/-- Byte-level well-formedness of an in-memory DhcpOption: code and length
are genuine uint8 values, data has exactly length bytes (the region
generate_option memcpy's), and the option is not PAD. -/
def wf_option (o : DhcpOption) : Prop :=
  o.code < 256 ∧ o.code ≠ 0 ∧ o.length = o.data.length ∧ o.length < 256 ∧
    ∀ b ∈ o.data, b < 256

/-- Well-formedness of a message for the round-trip statement: a full-size
header image, well-formed non-PAD options, END nowhere except possibly as
the final element, and any END option carrying no data. -/
def wf_message (m : DhcpMessage) : Prop :=
  m.header.length = header_size ∧
  (∀ o ∈ m.options, wf_option o) ∧
  (∀ o ∈ m.options.dropLast, o.code ≠ 255) ∧
  (∀ o ∈ m.options, o.code = 255 → o.length = 0)

instance : DecidablePred wf_option := fun o => by
  unfold wf_option; infer_instance

instance : DecidablePred wf_message := fun m => by
  unfold wf_message; infer_instance

def emit_all (options : List DhcpOption) : List Nat :=
  (options.map generate_option_bytes).flatten

def lease_at (st : LeaseStore) (i : Nat) : DhcpLease :=
  st.heap.getD i default_lease

/-- Index i is held by the store: some entry of either index references it. -/
def reaches (st : LeaseStore) (i : Nat) : Prop :=
  (∃ k, (k, i) ∈ st.byMac) ∨ (∃ k, (k, i) ∈ st.byIp)

/-- Invariant 4 of spec section 3 on one lease, under the field
correspondence allocated_at = lease_start, expires_at = lease_end,
renewal_at = renewal_time, rebinding_at = rebinding_time. -/
def timing_ok (l : DhcpLease) : Prop :=
  l.renewal_time ≤ l.rebinding_time ∧ l.rebinding_time ≤ l.lease_end ∧
    l.lease_start < l.lease_end

instance : DecidablePred timing_ok := fun l => by
  unfold timing_ok; infer_instance

/-- The lease-store invariants of the claim: at most one active lease per
MAC, at most one per IP, and the timing inequalities on every active
lease the store holds. -/
def store_invariant (st : LeaseStore) : Prop :=
  (∀ i j, reaches st i → reaches st j →
     (lease_at st i).is_active = true → (lease_at st j).is_active = true →
     (lease_at st i).mac_address = (lease_at st j).mac_address → i = j) ∧
  (∀ i j, reaches st i → reaches st j →
     (lease_at st i).is_active = true → (lease_at st j).is_active = true →
     (lease_at st i).ip_address = (lease_at st j).ip_address → i = j) ∧
  (∀ i, reaches st i → (lease_at st i).is_active = true → timing_ok (lease_at st i))

/-- The inductive well-formedness of the two-index store that the
operations preserve: unique keys, every entry references a live active heap
cell whose fields agree with its keys, and the two indices cross-reference
each other; all indexed leases satisfy the timing bounds. -/
structure StoreWF (st : LeaseStore) : Prop where
  macNodup : (st.byMac.map Prod.fst).Nodup
  ipNodup : (st.byIp.map Prod.fst).Nodup
  macOk : ∀ p ∈ st.byMac, p.2 < st.heap.length ∧
      (lease_at st p.2).mac_address = p.1 ∧ (lease_at st p.2).is_active = true ∧
      lookupA st.byIp (lease_at st p.2).ip_address = some p.2
  ipOk : ∀ p ∈ st.byIp, p.2 < st.heap.length ∧
      (lease_at st p.2).ip_address = p.1 ∧ (lease_at st p.2).is_active = true ∧
      lookupA st.byMac (lease_at st p.2).mac_address = some p.2
  timing : ∀ p ∈ st.byMac, timing_ok (lease_at st p.2)

/-! ## Concrete inputs for counterexamples and witnesses -/

def hdr0 : List Nat := List.replicate 548 0

def zero_mac : List Nat := List.replicate 6 0

/-- A message the parser accepts whose options contain a PAD option. -/
def msg_pad : DhcpMessage :=
  { header := hdr0
    options := [⟨0, 0, []⟩, ⟨53, 1, [1]⟩]
    message_type := 1
    client_mac := zero_mac
    client_ip := 0
    server_ip := 0
    relay_ip := 0 }

def bytes_pad : List Nat := hdr0 ++ [99, 130, 83, 99, 0, 0, 53, 1, 1, 255, 0]

def msg_pad_reparsed : DhcpMessage :=
  { header := hdr0
    options := [⟨0, 0, []⟩, ⟨0, 0, []⟩, ⟨53, 1, [1]⟩, ⟨255, 0, []⟩]
    message_type := 1
    client_mac := zero_mac
    client_ip := 0
    server_ip := 0
    relay_ip := 0 }

def bytes_pad_regen : List Nat :=
  hdr0 ++ [99, 130, 83, 99, 0, 0, 0, 0, 53, 1, 1, 255, 0]

/-- A PAD-free message for the round-trip witness. -/
def msg_rt : DhcpMessage :=
  { header := hdr0
    options := [⟨53, 1, [2]⟩, ⟨54, 4, [192, 168, 1, 1]⟩]
    message_type := 2
    client_mac := zero_mac
    client_ip := 0
    server_ip := 0
    relay_ip := 0 }

def bytes_rt : List Nat :=
  hdr0 ++ [99, 130, 83, 99, 53, 1, 2, 54, 4, 192, 168, 1, 1, 255, 0]

def msg_rt_reparsed : DhcpMessage :=
  { header := hdr0
    options := [⟨53, 1, [2]⟩, ⟨54, 4, [192, 168, 1, 1]⟩, ⟨255, 0, []⟩]
    message_type := 2
    client_mac := zero_mac
    client_ip := 0
    server_ip := 0
    relay_ip := 0 }

/-- Buffer of length 556 with op = 0 (neither BOOTREQUEST nor BOOTREPLY) but
a valid cookie and message-type option. -/
def buf_op0 : List Nat :=
  0 :: 1 :: 6 :: List.replicate 545 0 ++ [99, 130, 83, 99] ++ [53, 1, 1, 255]

/-- Exactly 240 bytes, valid BOOTP fixed fields (op 1, htype 1, hlen 6), no
cookie at offset 236. -/
def buf_240 : List Nat := 1 :: 1 :: 6 :: List.replicate 237 0

/-- The message parse_message produces from buf_op0. -/
def msg_op0 : DhcpMessage :=
  { header := buf_op0.take header_size
    options := [⟨53, 1, [1]⟩, ⟨255, 0, []⟩]
    message_type := 1
    client_mac := zero_mac
    client_ip := 0
    server_ip := 0
    relay_ip := 0 }

def subnet_3600 : DhcpSubnet :=
  { name := "s"
    network := 0
    prefix_length := 24
    range_start := htonl 1
    range_end := htonl 5
    gateway := 0
    dns_servers := []
    domain_name := ""
    lease_time := 3600
    max_lease_time := 7200
    reservations := []
    exclusions := [] }

def config_3600 : DhcpConfig :=
  { listen_addresses := ["0.0.0.0"]
    subnets := [subnet_3600]
    lease_file := ""
    enable_logging := true
    enable_security := true
    max_leases := 10000 }

/-- Subnet whose uint32 lease time 2^31 is positive but makes
lease_time * 7 wrap mod 2^32. -/
def subnet_big : DhcpSubnet :=
  { subnet_3600 with lease_time := 2147483648, max_lease_time := 2147483648 }

def config_big : DhcpConfig := { config_3600 with subnets := [subnet_big] }

def mac_a : List Nat := [0, 17, 34, 51, 68, 85]

def mac_b : List Nat := [9, 9, 9, 9, 9, 9]

def store_big : LeaseStore := run_ops config_big [.allocate mac_a 0 "s" 0]

/-- Subnet of two addresses whose first address is statically reserved for
mac_b. -/
def subnet_res : DhcpSubnet :=
  { subnet_3600 with
    range_end := htonl 2
    reservations := [(mac_b, { default_lease with ip_address := htonl 1 })] }

def config_res : DhcpConfig := { config_3600 with subnets := [subnet_res] }

/-- Store in which mac_a holds the active lease on htonl 1. -/
def store_c4 : LeaseStore := run_ops config_3600 [.allocate mac_a (htonl 1) "s" 0]

def lease_c4 : DhcpLease :=
  { mac_address := mac_a
    ip_address := htonl 1
    hostname := ""
    lease_start := 0
    lease_end := 3600
    renewal_time := 1800
    rebinding_time := 3150
    is_static := false
    is_active := true }

/-- Rule list in which the first enabled match (the expired wildcard rule)
shadows a later enabled, unexpired, exactly-matching rule. -/
def rule_wild_expired : RateLimitRule :=
  { identifier := "*"
    identifier_type := "mac"
    max_requests := 100
    time_window := 60
    block_duration := 300
    expires := -1
    enabled := true }

def rule_exact : RateLimitRule :=
  { identifier := "aa"
    identifier_type := "mac"
    max_requests := 1
    time_window := 10
    block_duration := 300
    expires := 1000000
    enabled := true }

def sec_state_c8 : SecurityState :=
  { rate_limit_rules := [rule_wild_expired, rule_exact]
    rate_limit_trackers := [("mac:aa", [5])]
    authentication_enabled := true
    authentication_key := "k"
    client_credentials := [] }

/-- State for the rate-limit witness: a single always-on rule. -/
def sec_state_c8w : SecurityState :=
  { rate_limit_rules :=
      [{ identifier := "bb"
         identifier_type := "ip"
         max_requests := 2
         time_window := 30
         block_duration := 300
         expires := 1000000
         enabled := true }]
    rate_limit_trackers := [("ip:bb", [4, 20])]
    authentication_enabled := false
    authentication_key := ""
    client_credentials := [] }

def credentials_ok : ClientCredentials :=
  { password_hash := ""
    salt := ""
    enabled := true
    expires := 1000000 }

def sec_state_c9 : SecurityState :=
  { rate_limit_rules := []
    rate_limit_trackers := []
    authentication_enabled := true
    authentication_key := "secret"
    client_credentials := [("00:11:22:33:44:55", credentials_ok)] }

/-- Stand-in for the external OpenSSL HMAC in the authentication witness:
any function returning 32 bytes works, the theorem is uniform in it. -/
def hmac_const (_key _message : String) : List Nat := List.range 32

/-! ## Association-list and list helper lemmas -/

theorem lookupA_nil {α β : Type} [DecidableEq α] (k : α) :
    lookupA ([] : List (α × β)) k = none := rfl

theorem lookupA_cons {α β : Type} [DecidableEq α] (p : α × β) (rest : List (α × β))
    (k : α) : lookupA (p :: rest) k = if p.1 = k then some p.2 else lookupA rest k := rfl

theorem lookupA_mem {α β : Type} [DecidableEq α] {l : List (α × β)} {k : α} {v : β}
    (h : lookupA l k = some v) : (k, v) ∈ l := by
  induction l with
  | nil => simp [lookupA_nil] at h
  | cons p rest ih =>
    rw [lookupA_cons] at h
    by_cases hp : p.1 = k
    · rw [if_pos hp] at h
      refine List.mem_cons.mpr (Or.inl ?_)
      cases p with
      | mk a b =>
        cases h
        cases hp
        rfl
    · rw [if_neg hp] at h
      exact List.mem_cons_of_mem _ (ih h)

theorem mem_lookupA {α β : Type} [DecidableEq α] {l : List (α × β)} {k : α} {v : β}
    (nodup : (l.map Prod.fst).Nodup) (h : (k, v) ∈ l) : lookupA l k = some v := by
  induction l with
  | nil => simp at h
  | cons p rest ih =>
    simp only [List.map_cons, List.nodup_cons] at nodup
    rcases List.mem_cons.mp h with h1 | h1
    · subst h1
      simp [lookupA]
    · have hne : p.1 ≠ k := by
        intro he
        exact nodup.1 (he ▸ (List.mem_map.mpr ⟨(k, v), h1, rfl⟩))
      rw [lookupA_cons, if_neg hne]
      exact ih nodup.2 h1

theorem lookupA_eq_none {α β : Type} [DecidableEq α] {l : List (α × β)} {k : α} :
    lookupA l k = none ↔ k ∉ l.map Prod.fst := by
  induction l with
  | nil => simp [lookupA_nil]
  | cons p rest ih =>
    rw [lookupA_cons]
    by_cases hp : p.1 = k
    · simp [hp]
    · rw [if_neg hp]
      simp only [List.map_cons, List.mem_cons]
      rw [ih]
      constructor
      · intro hn hm
        rcases hm with hm | hm
        · exact hp hm.symm
        · exact hn hm
      · intro hn hm
        exact hn (Or.inr hm)

theorem insertA_of_lookup_none {α β : Type} [DecidableEq α] {l : List (α × β)}
    {k : α} (v : β) (h : lookupA l k = none) : insertA l k v = l ++ [(k, v)] := by
  induction l with
  | nil => rfl
  | cons p rest ih =>
    rw [lookupA_cons] at h
    by_cases hp : p.1 = k
    · simp [hp] at h
    · rw [if_neg hp] at h
      show (if p.1 = k then _ else p :: insertA rest k v) = _
      rw [if_neg hp, ih h]
      rfl

theorem lookupA_append_single_ne {α β : Type} [DecidableEq α] {l : List (α × β)}
    {k k' : α} (v : β) (h : k ≠ k') : lookupA (l ++ [(k', v)]) k = lookupA l k := by
  induction l with
  | nil =>
    rw [List.nil_append, lookupA_nil, lookupA_cons]
    exact if_neg (fun he => h he.symm)
  | cons p rest ih =>
    rw [List.cons_append, lookupA_cons, lookupA_cons]
    by_cases hp : p.1 = k
    · rw [if_pos hp, if_pos hp]
    · rw [if_neg hp, if_neg hp]
      exact ih

theorem lookupA_append_single_self {α β : Type} [DecidableEq α] {l : List (α × β)}
    {k : α} (v : β) (h : lookupA l k = none) : lookupA (l ++ [(k, v)]) k = some v := by
  induction l with
  | nil => simp [lookupA_cons]
  | cons p rest ih =>
    rw [lookupA_cons] at h
    by_cases hp : p.1 = k
    · simp [hp] at h
    · rw [if_neg hp] at h
      rw [List.cons_append, lookupA_cons, if_neg hp]
      exact ih h

theorem lookupA_eraseA_ne {α β : Type} [DecidableEq α] {l : List (α × β)}
    {k k' : α} (h : k ≠ k') : lookupA (eraseA l k') k = lookupA l k := by
  induction l with
  | nil => simp [lookupA_nil, eraseA]
  | cons p rest ih =>
    unfold eraseA at ih ⊢
    by_cases hk' : p.1 = k'
    · have hp : ¬ p.1 = k := fun he => h (he ▸ hk' ▸ rfl)
      rw [List.filter_cons_of_neg (by simp [hk'])]
      rw [ih, lookupA_cons, if_neg hp]
    · rw [List.filter_cons_of_pos (by simp [hk'])]
      rw [lookupA_cons, lookupA_cons]
      by_cases hp : p.1 = k
      · rw [if_pos hp, if_pos hp]
      · rw [if_neg hp, if_neg hp]
        exact ih

theorem eraseA_sublist {α β : Type} [DecidableEq α] (l : List (α × β)) (k : α) :
    (eraseA l k).Sublist l :=
  List.filter_sublist l

theorem getD_append_left {α : Type} {l1 l2 : List α} {i : Nat} (d : α)
    (h : i < l1.length) : (l1 ++ l2).getD i d = l1.getD i d := by
  induction l1 generalizing i with
  | nil => simp at h
  | cons a rest ih =>
    cases i with
    | zero => rfl
    | succ n => simpa using ih (by simpa using h)

theorem getD_concat_self {α : Type} {l : List α} (a d : α) :
    (l ++ [a]).getD l.length d = a := by
  induction l with
  | nil => rfl
  | cons b rest ih => simp [ih]

theorem getD_set_self {α : Type} {l : List α} {i : Nat} (a d : α)
    (h : i < l.length) : (l.set i a).getD i d = a := by
  induction l generalizing i with
  | nil => simp at h
  | cons b rest ih =>
    cases i with
    | zero => rfl
    | succ n => simpa using ih (by simpa using h)

theorem getD_set_ne {α : Type} {l : List α} {i j : Nat} (a d : α)
    (h : i ≠ j) : (l.set i a).getD j d = l.getD j d := by
  induction l generalizing i j with
  | nil => simp
  | cons b rest ih =>
    cases i with
    | zero =>
      cases j with
      | zero => exact absurd rfl h
      | succ m => rfl
    | succ n =>
      cases j with
      | zero => rfl
      | succ m => simpa using ih (fun he => h (by simpa using he))

theorem length_set {α : Type} (l : List α) (i : Nat) (a : α) :
    (l.set i a).length = l.length := List.length_set l i a

/-! ## Range-scan helper lemmas -/

theorem byteswap32_lt (x : Nat) : byteswap32 x < 4294967296 := by
  unfold byteswap32
  omega

theorem byteswap32_bytes (u v w t : Nat) (hu : u < 256) (hv : v < 256)
    (hw : w < 256) (ht : t < 256) :
    byteswap32 (u * 16777216 + v * 65536 + w * 256 + t) =
      t * 16777216 + w * 65536 + v * 256 + u := by
  unfold byteswap32
  omega

theorem byteswap32_involution (x : Nat) (h : x < 4294967296) :
    byteswap32 (byteswap32 x) = x := by
  have hd : x / 16777216 < 256 := by omega
  have hswap : byteswap32 x =
      (x % 256) * 16777216 + (x / 256 % 256) * 65536 + (x / 65536 % 256) * 256 +
        x / 16777216 := by
    unfold byteswap32
    rw [Nat.mod_eq_of_lt hd]
  rw [hswap,
    byteswap32_bytes _ _ _ _ (by omega) (by omega) (by omega) hd]
  clear hswap
  omega

theorem find?_range'_first {p : Nat → Bool} {s n a : Nat}
    (h : (List.range' s n).find? p = some a) :
    s ≤ a ∧ a < s + n ∧ p a = true ∧ ∀ k, s ≤ k → k < a → p k = false := by
  induction n generalizing s with
  | zero => simp at h
  | succ m ih =>
    rw [List.range'_succ] at h
    cases hp : p s with
    | true =>
      rw [List.find?_cons_of_pos _ hp] at h
      cases h
      exact ⟨Nat.le_refl _, by omega, hp, fun k hk1 hk2 => absurd hk1 (by omega)⟩
    | false =>
      rw [List.find?_cons_of_neg _ (by simp [hp])] at h
      rcases ih h with ⟨h1, h2, h3, h4⟩
      refine ⟨by omega, by omega, h3, fun k hk1 hk2 => ?_⟩
      rcases Nat.eq_or_lt_of_le hk1 with he | hlt
      · exact he ▸ hp
      · exact h4 k hlt hk2

theorem find?_range'_none {p : Nat → Bool} {s n : Nat}
    (h : ∀ k, s ≤ k → k < s + n → p k = false) :
    (List.range' s n).find? p = none := by
  induction n generalizing s with
  | zero => simp
  | succ m ih =>
    rw [List.range'_succ]
    rw [List.find?_cons_of_neg _ (by simp [h s (Nat.le_refl s) (by omega)])]
    exact ih (fun k hk1 hk2 => h k (by omega) (by omega))

/-! ## Claim C2: store well-formedness machinery -/

theorem head?_mem {α : Type} {l : List α} {a : α} (h : l.head? = some a) :
    a ∈ l := by
  cases l with
  | nil => cases h
  | cons x xs =>
    cases h
    exact List.mem_cons_self _ _

theorem timing_ok_fresh (now : Int) (T : Nat) (hT : 0 < T)
    (hT7 : T * 7 < 4294967296) :
    timing_ok
      { mac_address := [], ip_address := 0, hostname := ""
        lease_start := now
        lease_end := calculate_lease_end now T
        renewal_time := calculate_renewal_time now T
        rebinding_time := calculate_rebinding_time now T
        is_static := false, is_active := true } := by
  unfold timing_ok calculate_lease_end calculate_renewal_time calculate_rebinding_time
  dsimp only
  have hmod : T * 7 % 4294967296 = T * 7 := Nat.mod_eq_of_lt hT7
  rw [hmod]
  refine ⟨?_, ?_, ?_⟩ <;> omega

/-- The heap cell values a well-formed store exposes: timing facts follow
from the fields alone, so restate timing_ok over the four time fields. -/
theorem timing_ok_of_fields (l : DhcpLease) (now : Int) (T : Nat)
    (h1 : l.lease_start = now) (h2 : l.lease_end = calculate_lease_end now T)
    (h3 : l.renewal_time = calculate_renewal_time now T)
    (h4 : l.rebinding_time = calculate_rebinding_time now T)
    (hT : 0 < T) (hT7 : T * 7 < 4294967296) : timing_ok l := by
  have := timing_ok_fresh now T hT hT7
  unfold timing_ok at this ⊢
  rw [h1, h2, h3, h4]
  exact this

theorem find_available_ip_props {subnet : DhcpSubnet} {st : LeaseStore} {ip : Nat}
    (h : find_available_ip subnet st = some ip) :
    lookupA st.byIp ip = none ∧ is_ip_excluded ip subnet = false := by
  unfold find_available_ip at h
  dsimp only at h
  rcases hfind : (List.range' (ntohl subnet.range_start)
        (ntohl subnet.range_end + 1 - ntohl subnet.range_start)).find?
      (fun ip => decide (lookupA st.byIp (htonl ip) = none ∧
        is_ip_excluded (htonl ip) subnet = false)) with _ | k
  · rw [hfind] at h
    cases h
  · rw [hfind] at h
    simp only [Option.map] at h
    cases h
    have hp := List.find?_some hfind
    simp only [decide_eq_true_eq, Bool.and_eq_true, decide_eq_true_iff] at hp
    exact hp

theorem storeWF_empty : StoreWF empty_store := by
  constructor <;> first
    | exact List.nodup_nil
    | (intro p hp; cases hp)

theorem storeWF_add (st : LeaseStore) (l : DhcpLease) (h : StoreWF st)
    (hmac : lookupA st.byMac l.mac_address = none)
    (hip : lookupA st.byIp l.ip_address = none)
    (hact : l.is_active = true) (ht : timing_ok l) :
    StoreWF (add_lease st l) := by
  have hkm : l.mac_address ∉ st.byMac.map Prod.fst := lookupA_eq_none.mp hmac
  have hki : l.ip_address ∉ st.byIp.map Prod.fst := lookupA_eq_none.mp hip
  have hbm : insertA st.byMac l.mac_address st.heap.length =
      st.byMac ++ [(l.mac_address, st.heap.length)] :=
    insertA_of_lookup_none _ hmac
  have hbi : insertA st.byIp l.ip_address st.heap.length =
      st.byIp ++ [(l.ip_address, st.heap.length)] :=
    insertA_of_lookup_none _ hip
  have hlease_old : ∀ j, j < st.heap.length →
      lease_at (add_lease st l) j = lease_at st j := by
    intro j hj
    unfold lease_at add_lease
    dsimp only
    exact getD_append_left _ hj
  have hlease_new : lease_at (add_lease st l) st.heap.length = l := by
    unfold lease_at add_lease
    dsimp only
    exact getD_concat_self _ _
  constructor
  · show (List.map Prod.fst (insertA st.byMac l.mac_address st.heap.length)).Nodup
    rw [hbm, List.map_append]
    rw [List.nodup_append]
    refine ⟨h.macNodup, List.nodup_singleton _, fun a ha hb => ?_⟩
    have hab : a = l.mac_address := by simpa using hb
    subst hab
    exact hkm ha
  · show (List.map Prod.fst (insertA st.byIp l.ip_address st.heap.length)).Nodup
    rw [hbi, List.map_append]
    rw [List.nodup_append]
    refine ⟨h.ipNodup, List.nodup_singleton _, fun a ha hb => ?_⟩
    have hab : a = l.ip_address := by simpa using hb
    subst hab
    exact hki ha
  · intro p hp
    rw [show (add_lease st l).byMac =
        insertA st.byMac l.mac_address st.heap.length from rfl, hbm] at hp
    rcases List.mem_append.mp hp with hold | hnew
    · obtain ⟨hlt, hm, ha, hcross⟩ := h.macOk p hold
      have hl := hlease_old p.2 hlt
      refine ⟨by
          show p.2 < (st.heap ++ [l]).length
          simp only [List.length_append]
          omega,
        by rw [hl]; exact hm, by rw [hl]; exact ha, ?_⟩
      rw [hl]
      show lookupA (insertA st.byIp l.ip_address st.heap.length) _ = some p.2
      rw [hbi]
      have hne : (lease_at st p.2).ip_address ≠ l.ip_address := by
        intro he
        rw [he, hip] at hcross
        cases hcross
      rw [lookupA_append_single_ne _ hne]
      exact hcross
    · have hpe : p = (l.mac_address, st.heap.length) := by simpa using hnew
      subst hpe
      refine ⟨by
          show st.heap.length < (st.heap ++ [l]).length
          simp,
        by rw [hlease_new], by rw [hlease_new]; exact hact, ?_⟩
      rw [hlease_new]
      show lookupA (insertA st.byIp l.ip_address st.heap.length) _ = _
      rw [hbi]
      exact lookupA_append_single_self _ hip
  · intro p hp
    rw [show (add_lease st l).byIp =
        insertA st.byIp l.ip_address st.heap.length from rfl, hbi] at hp
    rcases List.mem_append.mp hp with hold | hnew
    · obtain ⟨hlt, hm, ha, hcross⟩ := h.ipOk p hold
      have hl := hlease_old p.2 hlt
      refine ⟨by
          show p.2 < (st.heap ++ [l]).length
          simp only [List.length_append]
          omega,
        by rw [hl]; exact hm, by rw [hl]; exact ha, ?_⟩
      rw [hl]
      show lookupA (insertA st.byMac l.mac_address st.heap.length) _ = some p.2
      rw [hbm]
      have hne : (lease_at st p.2).mac_address ≠ l.mac_address := by
        intro he
        rw [he, hmac] at hcross
        cases hcross
      rw [lookupA_append_single_ne _ hne]
      exact hcross
    · have hpe : p = (l.ip_address, st.heap.length) := by simpa using hnew
      subst hpe
      refine ⟨by
          show st.heap.length < (st.heap ++ [l]).length
          simp,
        by rw [hlease_new], by rw [hlease_new]; exact hact, ?_⟩
      rw [hlease_new]
      show lookupA (insertA st.byMac l.mac_address st.heap.length) _ = _
      rw [hbm]
      exact lookupA_append_single_self _ hmac
  · intro p hp
    rw [show (add_lease st l).byMac =
        insertA st.byMac l.mac_address st.heap.length from rfl, hbm] at hp
    rcases List.mem_append.mp hp with hold | hnew
    · have hlt := (h.macOk p hold).1
      rw [hlease_old p.2 hlt]
      exact h.timing p hold
    · have hpe : p = (l.mac_address, st.heap.length) := by simpa using hnew
      subst hpe
      rw [hlease_new]
      exact ht

/-- Mutating a heap cell in place (the renew path) preserves
well-formedness when the new value keeps the mac, ip and active flag and
satisfies the timing bounds. -/
theorem storeWF_set_same (st : LeaseStore) (i : Nat) (l' : DhcpLease)
    (h : StoreWF st)
    (hm : l'.mac_address = (lease_at st i).mac_address)
    (hi : l'.ip_address = (lease_at st i).ip_address)
    (ha : l'.is_active = (lease_at st i).is_active)
    (ht : timing_ok l') :
    StoreWF { st with heap := st.heap.set i l' } := by
  have hat : ∀ j, lease_at { st with heap := st.heap.set i l' } j =
      if i = j ∧ i < st.heap.length then l' else lease_at st j := by
    intro j
    unfold lease_at
    dsimp only
    by_cases hij : i = j
    · subst hij
      by_cases hlt : i < st.heap.length
      · rw [if_pos ⟨rfl, hlt⟩]
        exact getD_set_self _ _ hlt
      · rw [if_neg (fun hc => hlt hc.2)]
        rw [List.set_eq_of_length_le (by omega)]
    · rw [if_neg (fun hc => hij hc.1)]
      exact getD_set_ne _ _ hij
  have hfields : ∀ j, ((lease_at { st with heap := st.heap.set i l' } j).mac_address =
        (lease_at st j).mac_address ∧
      (lease_at { st with heap := st.heap.set i l' } j).ip_address =
        (lease_at st j).ip_address ∧
      (lease_at { st with heap := st.heap.set i l' } j).is_active =
        (lease_at st j).is_active) := by
    intro j
    rw [hat j]
    by_cases hc : i = j ∧ i < st.heap.length
    · rw [if_pos hc]
      rw [hc.1] at hm hi ha
      exact ⟨hm, hi, ha⟩
    · rw [if_neg hc]
      exact ⟨rfl, rfl, rfl⟩
  constructor
  · exact h.macNodup
  · exact h.ipNodup
  · intro p hp
    obtain ⟨hlt, hmm, haa, hcross⟩ := h.macOk p hp
    refine ⟨by simpa using hlt, ?_, ?_, ?_⟩
    · rw [(hfields p.2).1]
      exact hmm
    · rw [(hfields p.2).2.2]
      exact haa
    · show lookupA st.byIp _ = some p.2
      rw [(hfields p.2).2.1]
      exact hcross
  · intro p hp
    obtain ⟨hlt, hmm, haa, hcross⟩ := h.ipOk p hp
    refine ⟨by simpa using hlt, ?_, ?_, ?_⟩
    · rw [(hfields p.2).2.1]
      exact hmm
    · rw [(hfields p.2).2.2]
      exact haa
    · show lookupA st.byMac _ = some p.2
      rw [(hfields p.2).1]
      exact hcross
  · intro p hp
    rw [hat p.2]
    by_cases hc : i = p.2 ∧ i < st.heap.length
    · rw [if_pos hc]
      exact ht
    · rw [if_neg hc]
      exact h.timing p hp

/-- Deactivate-and-remove (the release and reaper path) preserves
well-formedness when the removed index is the one its MAC key references. -/
theorem storeWF_expire_one (st : LeaseStore) (i : Nat) (h : StoreWF st)
    (hm : lookupA st.byMac (lease_at st i).mac_address = some i) :
    StoreWF (expire_one st i) := by
  have hmem : ((lease_at st i).mac_address, i) ∈ st.byMac := lookupA_mem hm
  obtain ⟨hlt, _, _, hcrossIp⟩ := h.macOk _ hmem
  have hat : ∀ j, j ≠ i → lease_at (expire_one st i) j = lease_at st j := by
    intro j hj
    unfold expire_one remove_lease lease_at
    dsimp only
    exact getD_set_ne _ _ (fun he => hj he.symm)
  have hbyMac : (expire_one st i).byMac =
      eraseA st.byMac (lease_at st i).mac_address := rfl
  have hbyIp : (expire_one st i).byIp =
      eraseA st.byIp (lease_at st i).ip_address := rfl
  constructor
  · rw [hbyMac]
    exact h.macNodup.sublist ((eraseA_sublist _ _).map _)
  · rw [hbyIp]
    exact h.ipNodup.sublist ((eraseA_sublist _ _).map _)
  · intro p hp
    rw [hbyMac] at hp
    have hp1 := List.mem_of_mem_filter hp
    have hpk : p.1 ≠ (lease_at st i).mac_address := by
      have := List.of_mem_filter hp
      simpa using this
    obtain ⟨hplt, hpm, hpa, hpcross⟩ := h.macOk p hp1
    have hpi : p.2 ≠ i := by
      intro he
      rw [he] at hpm
      exact hpk (by rw [← hpm])
    have hl := hat p.2 hpi
    refine ⟨by
        show p.2 < (st.heap.set i _).length
        rw [length_set]
        exact hplt,
      by rw [hl]; exact hpm, by rw [hl]; exact hpa, ?_⟩
    rw [hl, hbyIp]
    have hne : (lease_at st p.2).ip_address ≠ (lease_at st i).ip_address := by
      intro he
      rw [he, hcrossIp] at hpcross
      cases hpcross
      exact hpi rfl
    rw [lookupA_eraseA_ne hne]
    exact hpcross
  · intro p hp
    rw [hbyIp] at hp
    have hp1 := List.mem_of_mem_filter hp
    have hpk : p.1 ≠ (lease_at st i).ip_address := by
      have := List.of_mem_filter hp
      simpa using this
    obtain ⟨hplt, hpm, hpa, hpcross⟩ := h.ipOk p hp1
    have hpi : p.2 ≠ i := by
      intro he
      rw [he] at hpm
      exact hpk (by rw [← hpm])
    have hl := hat p.2 hpi
    refine ⟨by
        show p.2 < (st.heap.set i _).length
        rw [length_set]
        exact hplt,
      by rw [hl]; exact hpm, by rw [hl]; exact hpa, ?_⟩
    rw [hl, hbyMac]
    have hne : (lease_at st p.2).mac_address ≠ (lease_at st i).mac_address := by
      intro he
      rw [he, hm] at hpcross
      cases hpcross
      exact hpi rfl
    rw [lookupA_eraseA_ne hne]
    exact hpcross
  · intro p hp
    rw [hbyMac] at hp
    have hp1 := List.mem_of_mem_filter hp
    have hpk : p.1 ≠ (lease_at st i).mac_address := by
      have := List.of_mem_filter hp
      simpa using this
    obtain ⟨hplt, hpm, _, _⟩ := h.macOk p hp1
    have hpi : p.2 ≠ i := by
      intro he
      rw [he] at hpm
      exact hpk (by rw [← hpm])
    rw [hat p.2 hpi]
    exact h.timing p hp1

/-- Under well-formedness, the heap index determines the byMac entry. -/
theorem storeWF_snd_inj (st : LeaseStore) (h : StoreWF st) :
    ∀ p ∈ st.byMac, ∀ q ∈ st.byMac, p.2 = q.2 → p = q := by
  intro p hp q hq he
  have h1 := (h.macOk p hp).2.1
  have h2 := (h.macOk q hq).2.1
  rw [he] at h1
  have : p.1 = q.1 := by rw [← h1, ← h2]
  cases p
  cases q
  simp only at he this
  rw [he, this]

theorem foldl_expire_wf (idxs : List Nat) (st : LeaseStore) (h : StoreWF st)
    (hnd : idxs.Nodup)
    (hin : ∀ j ∈ idxs, lookupA st.byMac (lease_at st j).mac_address = some j) :
    StoreWF (idxs.foldl expire_one st) := by
  induction idxs generalizing st with
  | nil => exact h
  | cons i rest ih =>
    rw [List.foldl_cons]
    have hmi := hin i (by simp)
    have h1 : StoreWF (expire_one st i) := storeWF_expire_one st i h hmi
    refine ih (expire_one st i) h1 (List.Nodup.of_cons hnd) ?_
    intro j hj
    have hji : j ≠ i := by
      intro he
      rw [he] at hj
      exact (List.nodup_cons.mp hnd).1 hj
    have hmj := hin j (by simp [hj])
    have hlj : lease_at (expire_one st i) j = lease_at st j := by
      unfold expire_one remove_lease lease_at
      dsimp only
      exact getD_set_ne _ _ (fun he => hji he.symm)
    rw [hlj]
    show lookupA (eraseA st.byMac (lease_at st i).mac_address) _ = some j
    have hne : (lease_at st j).mac_address ≠ (lease_at st i).mac_address := by
      intro he
      rw [he, hmi] at hmj
      cases hmj
      exact hji rfl
    rw [lookupA_eraseA_ne hne]
    exact hmj

theorem cleanup_wf (st : LeaseStore) (now : Int) (h : StoreWF st) :
    StoreWF (cleanup_expired_leases st now) := by
  unfold cleanup_expired_leases
  dsimp only
  set φ := fun p : List Nat × Nat =>
    decide ((st.heap.getD p.2 default_lease).is_active = true ∧
      now > (st.heap.getD p.2 default_lease).lease_end) with hφ
  refine foldl_expire_wf _ st h ?_ ?_
  · refine List.Nodup.map_on ?_ ((h.macNodup.of_map).filter _)
    intro p hp q hq he
    exact storeWF_snd_inj st h p (List.mem_of_mem_filter hp) q
      (List.mem_of_mem_filter hq) he
  · intro j hj
    rcases List.mem_map.mp hj with ⟨p, hp, hpe⟩
    have hp1 := List.mem_of_mem_filter hp
    have hmac := (h.macOk p hp1).2.1
    have : lookupA st.byMac p.1 = some p.2 := mem_lookupA h.macNodup (by
      cases p
      exact hp1)
    rw [← hpe]
    rw [hmac]
    exact this

/-- Dissection of a successful allocate_lease under well-formedness: the
state is unchanged (existing active lease) or a fresh well-placed lease was
added. -/
theorem allocate_result (config : DhcpConfig) (st : LeaseStore)
    (mac : List Nat) (rip : Nat) (sn : String) (now : Int)
    (l : DhcpLease) (st' : LeaseStore) (h : StoreWF st)
    (hok : allocate_lease config st mac rip sn now = .ok (l, st')) :
    st' = st ∨
    (∃ subnet, get_subnet_by_name config sn = some subnet ∧
      st' = add_lease st l ∧ l.mac_address = mac ∧ l.is_active = true ∧
      lookupA st.byMac mac = none ∧ lookupA st.byIp l.ip_address = none ∧
      l.lease_start = now ∧
      l.lease_end = calculate_lease_end now subnet.lease_time ∧
      l.renewal_time = calculate_renewal_time now subnet.lease_time ∧
      l.rebinding_time = calculate_rebinding_time now subnet.lease_time) := by
  unfold allocate_lease at hok
  rcases hm : lookupA st.byMac mac with _ | i
  · rw [hm] at hok
    dsimp only at hok
    rcases hs : get_subnet_by_name config sn with _ | subnet
    · rw [hs] at hok
      cases hok
    · rw [hs] at hok
      dsimp only at hok
      by_cases hrip : rip = 0
      · rw [if_pos hrip] at hok
        rcases hf : find_available_ip subnet st with _ | ip
        · rw [hf] at hok
          cases hok
        · rw [hf] at hok
          dsimp only at hok
          cases hok
          refine Or.inr ⟨subnet, rfl, rfl, rfl, rfl, rfl, ?_, rfl, rfl, rfl, rfl⟩
          exact (find_available_ip_props hf).1
      · rw [if_neg hrip] at hok
        rcases ha : is_ip_available config st rip sn with _ | b
        · rw [ha] at hok
          cases hok
        · rcases b with _ | _
          · rw [ha] at hok
            cases hok
          · rw [ha] at hok
            dsimp only at hok
            cases hok
            refine Or.inr ⟨subnet, rfl, rfl, rfl, rfl, rfl, ?_, rfl, rfl, rfl, rfl⟩
            unfold is_ip_available at ha
            rcases hlk : lookupA st.byIp rip with _ | j
            · rfl
            · rw [hlk] at ha
              dsimp only at ha
              have hact := (h.ipOk _ (lookupA_mem hlk)).2.2.1
              rw [if_pos (by exact hact)] at ha
              cases ha
  · rw [hm] at hok
    dsimp only at hok
    have hact := (h.macOk _ (lookupA_mem hm)).2.2.1
    rw [if_pos (by exact hact)] at hok
    cases hok
    exact Or.inl rfl

theorem allocate_wf (config : DhcpConfig) (st : LeaseStore) (mac : List Nat)
    (rip : Nat) (sn : String) (now : Int) (h : StoreWF st)
    (hT : ∀ s ∈ config.subnets, 0 < s.lease_time ∧
      s.lease_time * 7 < 4294967296) :
    StoreWF (apply_op config st (.allocate mac rip sn now)) := by
  unfold apply_op
  dsimp only
  rcases ha : allocate_lease config st mac rip sn now with e | pair
  · exact h
  · rcases allocate_result config st mac rip sn now pair.1 pair.2 h
        (by rw [ha]) with heq |
        ⟨subnet, hs, hadd, hmacf, hact, hmac, hip, h1, h2, h3, h4⟩
    · dsimp only
      rw [heq]
      exact h
    · dsimp only
      rw [hadd]
      have hsub := List.mem_of_find?_eq_some hs
      have hT' := hT subnet hsub
      refine storeWF_add st pair.1 h ?_ hip hact
        (timing_ok_of_fields pair.1 now subnet.lease_time h1 h2 h3 h4
          hT'.1 hT'.2)
      rw [hmacf]
      exact hmac

theorem renew_wf (config : DhcpConfig) (st : LeaseStore) (mac : List Nat)
    (ip : Nat) (now : Int) (h : StoreWF st)
    (hT : ∀ s ∈ config.subnets, 0 < s.lease_time ∧
      s.lease_time * 7 < 4294967296) :
    StoreWF (apply_op config st (.renew mac ip now)) := by
  unfold apply_op
  dsimp only
  rcases ha : renew_lease config st mac ip now with e | pair
  · exact h
  · dsimp only
    unfold renew_lease at ha
    rcases hm : lookupA st.byMac mac with _ | i
    · rw [hm] at ha
      cases ha
    · rw [hm] at ha
      dsimp only at ha
      by_cases hact : ¬ (st.heap.getD i default_lease).is_active = true
      · rw [if_pos hact] at ha
        cases ha
      · rw [if_neg hact] at ha
        by_cases hipx : (st.heap.getD i default_lease).ip_address ≠ ip
        · rw [if_pos hipx] at ha
          cases ha
        · rw [if_neg hipx] at ha
          rcases hh : config.subnets.head? with _ | subnet
          · rw [hh] at ha
            cases ha
          · rw [hh] at ha
            dsimp only at ha
            cases ha
            have hT' := hT subnet (head?_mem hh)
            exact storeWF_set_same st i _ h rfl rfl (by
                push_neg at hact
                show (st.heap.getD i default_lease).is_active = _
                rw [hact]
                exact ((h.macOk _ (lookupA_mem hm)).2.2.1).symm ▸ rfl)
              (timing_ok_of_fields _ now subnet.lease_time rfl rfl rfl rfl
                hT'.1 hT'.2)

theorem release_wf (st : LeaseStore) (mac : List Nat) (ip : Nat)
    (h : StoreWF st) : StoreWF (release_lease st mac ip).2 := by
  unfold release_lease
  rcases hm : lookupA st.byMac mac with _ | i
  · exact h
  · dsimp only
    by_cases hipx : (st.heap.getD i default_lease).ip_address ≠ ip
    · rw [if_pos hipx]
      exact h
    · rw [if_neg hipx]
      dsimp only
      have hmacf := (h.macOk _ (lookupA_mem hm)).2.1
      refine storeWF_expire_one st i h ?_
      show lookupA st.byMac (lease_at st i).mac_address = some i
      rw [hmacf]
      exact hm

theorem run_ops_wf (config : DhcpConfig) (ops : List LeaseOp)
    (hT : ∀ s ∈ config.subnets, 0 < s.lease_time ∧
      s.lease_time * 7 < 4294967296) :
    StoreWF (run_ops config ops) := by
  unfold run_ops
  have key : ∀ (ops : List LeaseOp) (st : LeaseStore), StoreWF st →
      StoreWF (ops.foldl (apply_op config) st) := by
    intro ops
    induction ops with
    | nil => intro st hst; exact hst
    | cons op rest ih =>
      intro st hst
      rw [List.foldl_cons]
      refine ih _ ?_
      cases op with
      | allocate mac rip sn now => exact allocate_wf config st mac rip sn now hst hT
      | renew mac ip now => exact renew_wf config st mac ip now hst hT
      | release mac ip => exact release_wf st mac ip hst
      | expire now => exact cleanup_wf st now hst
  exact key ops empty_store storeWF_empty

theorem storeWF_invariant (st : LeaseStore) (h : StoreWF st) :
    store_invariant st := by
  have hkey : ∀ i, reaches st i →
      lookupA st.byMac (lease_at st i).mac_address = some i ∧
      lookupA st.byIp (lease_at st i).ip_address = some i := by
    intro i hi
    rcases hi with ⟨k, hk⟩ | ⟨k, hk⟩
    · obtain ⟨_, hm, _, hcross⟩ := h.macOk _ hk
      have hm' : (lease_at st i).mac_address = k := hm
      refine ⟨?_, hcross⟩
      rw [hm']
      exact mem_lookupA h.macNodup hk
    · obtain ⟨_, hm, _, hcross⟩ := h.ipOk _ hk
      have hm' : (lease_at st i).ip_address = k := hm
      refine ⟨hcross, ?_⟩
      rw [hm']
      exact mem_lookupA h.ipNodup hk
  refine ⟨?_, ?_, ?_⟩
  · intro i j hi hj _ _ hmac
    have h1 := (hkey i hi).1
    have h2 := (hkey j hj).1
    rw [hmac] at h1
    rw [h1] at h2
    cases h2
    rfl
  · intro i j hi hj _ _ hip
    have h1 := (hkey i hi).2
    have h2 := (hkey j hj).2
    rw [hip] at h1
    rw [h1] at h2
    cases h2
    rfl
  · intro i hi _
    have h1 := (hkey i hi).1
    have hmem := lookupA_mem h1
    have := h.timing _ hmem
    exact this

/-- Claim C2 counterexample: one allocation with the positive uint32 lease
time 2^31 yields an active, store-held lease whose renewal_time exceeds its
rebinding_time — lease_time * 7 wraps mod 2^32 in
calculate_rebinding_time, so positivity of the lease time alone does not
give invariant 4. -/
theorem lease_invariants_overflow :
    store_big.byMac = [(mac_a, 0)] ∧
    (lease_at store_big 0).is_active = true ∧
    subnet_big.lease_time = 2147483648 ∧ 0 < subnet_big.lease_time ∧
    config_big.subnets = [subnet_big] ∧
    (lease_at store_big 0).renewal_time = 1073741824 ∧
    (lease_at store_big 0).rebinding_time = 268435456 ∧
    ¬ timing_ok (lease_at store_big 0) := by
  decide

/-- Claim C2 as amended: after every finite sequence of allocate, renew,
release and expiry-removal operations from the empty store, the store holds
at most one active lease per MAC and per IP, and every held active lease
satisfies renewal_time ≤ rebinding_time ≤ lease_end and
lease_start < lease_end — provided every configured subnet lease time T
satisfies 0 < T and T * 7 < 2^32 (the extra bound rules out the uint32
wrap; positivity alone is not enough). -/
theorem lease_store_invariants (config : DhcpConfig) (ops : List LeaseOp)
    (hT : ∀ s ∈ config.subnets, 0 < s.lease_time ∧
      s.lease_time * 7 < 4294967296) :
    store_invariant (run_ops config ops) :=
  storeWF_invariant _ (run_ops_wf config ops hT)

/-- Witness for lease_store_invariants: a concrete run of allocate, renew,
release on the 3600-second subnet. -/
theorem lease_store_invariants_witness :
    (∀ s ∈ config_3600.subnets, 0 < s.lease_time ∧
      s.lease_time * 7 < 4294967296) ∧
    store_invariant (run_ops config_3600
      [.allocate mac_a 0 "s" 0, .renew mac_a 16777216 100,
       .allocate mac_b 0 "s" 120, .release mac_a 16777216, .expire 5000]) :=
  ⟨by decide,
    lease_store_invariants config_3600
      [.allocate mac_a 0 "s" 0, .renew mac_a 16777216 100,
       .allocate mac_b 0 "s" 120, .release mac_a 16777216, .expire 5000]
      (by decide)⟩

/-! ## Claim C3 -/

/-- Reduction of allocate_lease in the fresh-allocation case (no active
lease for the MAC, subnet found, requested_ip = 0): the result is governed
by find_available_ip. -/
theorem allocate_lease_fresh_eq (config : DhcpConfig) (st : LeaseStore)
    (mac : List Nat) (subnet_name : String) (subnet : DhcpSubnet) (now : Int)
    (hnoactive : match lookupA st.byMac mac with
      | some i => (st.heap.getD i default_lease).is_active = false
      | none => True)
    (hsub : get_subnet_by_name config subnet_name = some subnet) :
    allocate_lease config st mac 0 subnet_name now =
      (match find_available_ip subnet st with
       | some ip =>
         .ok
           ({ mac_address := mac
              ip_address := ip
              hostname := ""
              lease_start := now
              lease_end := calculate_lease_end now subnet.lease_time
              renewal_time := calculate_renewal_time now subnet.lease_time
              rebinding_time := calculate_rebinding_time now subnet.lease_time
              is_static := false
              is_active := true },
            add_lease st
              { mac_address := mac
                ip_address := ip
                hostname := ""
                lease_start := now
                lease_end := calculate_lease_end now subnet.lease_time
                renewal_time := calculate_renewal_time now subnet.lease_time
                rebinding_time := calculate_rebinding_time now subnet.lease_time
                is_static := false
                is_active := true })
       | none => .error .noAvailableIp) := by
  unfold allocate_lease
  rcases hm : lookupA st.byMac mac with _ | i
  · dsimp only
    rw [hsub]
    dsimp only
    rw [if_pos rfl]
    rcases hf : find_available_ip subnet st with _ | ip <;> rfl
  · rw [hm] at hnoactive
    dsimp only
    rw [if_neg (by rw [hnoactive]; exact fun hc => Bool.false_ne_true hc)]
    rw [hsub]
    dsimp only
    rw [if_pos rfl]
    rcases hf : find_available_ip subnet st with _ | ip <;> rfl

/-- Claim C3 counterexample: with an empty store and a subnet whose first
address htonl 1 is statically reserved for mac_b, a fresh allocation for
mac_a returns htonl 1 anyway — condition (c) of the claim (skip IPs inside
a static reservation for another MAC) is not implemented, and no DECLINE
cooldown list exists either. -/
theorem allocate_lease_ignores_reservations :
    allocate_lease config_res empty_store mac_a 0 "s" 0 =
      .ok (lease_c4, add_lease empty_store lease_c4) ∧
    lease_c4.ip_address = htonl 1 ∧
    subnet_res.reservations =
      [(mac_b, { default_lease with ip_address := htonl 1 })] ∧
    mac_a ≠ mac_b := by
  decide

/-- Claim C3 as amended: a fresh allocation (requested_ip = 0, no active
lease for the MAC) scans the host-order range ntohl(range_start) ..
ntohl(range_end) in ascending order and returns the first IP that is not a
key of the IP index and not excluded — static reservations and DECLINE
cooldowns are not consulted; when no such IP exists it fails with the
pool-exhausted error. -/
theorem allocate_lease_fresh_scan_first (config : DhcpConfig) (st : LeaseStore)
    (mac : List Nat) (subnet_name : String) (subnet : DhcpSubnet) (now : Int)
    (hnoactive : match lookupA st.byMac mac with
      | some i => (st.heap.getD i default_lease).is_active = false
      | none => True)
    (hsub : get_subnet_by_name config subnet_name = some subnet) :
    (∀ l st', allocate_lease config st mac 0 subnet_name now = .ok (l, st') →
      ntohl subnet.range_start ≤ ntohl l.ip_address ∧
      ntohl l.ip_address ≤ ntohl subnet.range_end ∧
      lookupA st.byIp l.ip_address = none ∧
      is_ip_excluded l.ip_address subnet = false ∧
      ∀ k, ntohl subnet.range_start ≤ k → k < ntohl l.ip_address →
        ¬ (lookupA st.byIp (htonl k) = none ∧
            is_ip_excluded (htonl k) subnet = false)) ∧
    ((∀ k, ntohl subnet.range_start ≤ k → k ≤ ntohl subnet.range_end →
        ¬ (lookupA st.byIp (htonl k) = none ∧
            is_ip_excluded (htonl k) subnet = false)) →
      allocate_lease config st mac 0 subnet_name now = .error .noAvailableIp) := by
  rw [allocate_lease_fresh_eq config st mac subnet_name subnet now hnoactive hsub]
  constructor
  · intro l st' hok
    rcases hf : find_available_ip subnet st with _ | ip
    · rw [hf] at hok
      cases hok
    · rw [hf] at hok
      cases hok
      unfold find_available_ip at hf
      dsimp only at hf
      rcases hfind : (List.range' (ntohl subnet.range_start)
            (ntohl subnet.range_end + 1 - ntohl subnet.range_start)).find?
          (fun ip => decide (lookupA st.byIp (htonl ip) = none ∧
            is_ip_excluded (htonl ip) subnet = false)) with _ | k
      · rw [hfind] at hf
        cases hf
      · rw [hfind] at hf
        simp only [Option.map] at hf
        cases hf
        rcases find?_range'_first hfind with ⟨h1, h2, h3, h4⟩
        have hk32 : k < 4294967296 := by
          have hb1 := byteswap32_lt subnet.range_end
          have hb2 := byteswap32_lt subnet.range_start
          unfold ntohl at h2
          omega
        have hback : ntohl (htonl k) = k := byteswap32_involution k hk32
        simp only [decide_eq_true_eq, Bool.and_eq_true, decide_eq_true_iff] at h3
        dsimp only
        rw [hback]
        refine ⟨h1, by omega, h3.1, h3.2, ?_⟩
        intro k' hk1 hk2
        have := h4 k' hk1 hk2
        simp only [decide_eq_true_eq, Bool.and_eq_true, decide_eq_true_iff] at this
        intro hc
        rw [hc.1, hc.2] at this
        simp at this
  · intro hall
    have hnone : find_available_ip subnet st = none := by
      unfold find_available_ip
      dsimp only
      have hp : ∀ k, ntohl subnet.range_start ≤ k →
          k < ntohl subnet.range_start +
            (ntohl subnet.range_end + 1 - ntohl subnet.range_start) →
          (fun ip => decide (lookupA st.byIp (htonl ip) = none ∧
            is_ip_excluded (htonl ip) subnet = false)) k = false := by
        intro k hk1 hk2
        have hk3 : k ≤ ntohl subnet.range_end := by omega
        have hnc := hall k hk1 hk3
        dsimp only
        rw [decide_eq_false_iff_not]
        exact hnc
      rw [find?_range'_none hp]
      rfl
    rw [hnone]

/-- Witness for allocate_lease_fresh_scan_first: mac_b has no lease in
store_c4; the scan facts hold for its fresh allocation. -/
theorem allocate_lease_fresh_scan_first_witness :
    (match lookupA store_c4.byMac mac_b with
      | some i => (store_c4.heap.getD i default_lease).is_active = false
      | none => True) ∧
    get_subnet_by_name config_3600 "s" = some subnet_3600 ∧
    ((∀ l st',
        allocate_lease config_3600 store_c4 mac_b 0 "s" 9 = .ok (l, st') →
        ntohl subnet_3600.range_start ≤ ntohl l.ip_address ∧
        ntohl l.ip_address ≤ ntohl subnet_3600.range_end ∧
        lookupA store_c4.byIp l.ip_address = none ∧
        is_ip_excluded l.ip_address subnet_3600 = false ∧
        ∀ k, ntohl subnet_3600.range_start ≤ k → k < ntohl l.ip_address →
          ¬ (lookupA store_c4.byIp (htonl k) = none ∧
              is_ip_excluded (htonl k) subnet_3600 = false)) ∧
      ((∀ k, ntohl subnet_3600.range_start ≤ k →
          k ≤ ntohl subnet_3600.range_end →
          ¬ (lookupA store_c4.byIp (htonl k) = none ∧
              is_ip_excluded (htonl k) subnet_3600 = false)) →
        allocate_lease config_3600 store_c4 mac_b 0 "s" 9 =
          .error .noAvailableIp)) :=
  ⟨trivial, by decide,
    allocate_lease_fresh_scan_first config_3600 store_c4 mac_b "s" subnet_3600 9
      trivial (by decide)⟩

/-! ## Claim C5 -/

/-- Claim C5, code evaluated at the failing input: for subnet lease time
3600 seconds, build_lease_options emits option 51 with payload (0,0,0,16),
option 58 with (0,0,0,8) and option 59 with (0,0,0,78) — the big-endian
values 16, 8 and 78 — because each uint32 seconds value is cast to uint8
before being placed in the last byte.  The claimed values 3600, 1800 and
3150 are not produced. -/
theorem build_lease_options_truncates_to_uint8 :
    build_lease_options default_lease subnet_3600 =
      [⟨51, 4, [0, 0, 0, 16]⟩, ⟨58, 4, [0, 0, 0, 8]⟩, ⟨59, 4, [0, 0, 0, 78]⟩] ∧
    u32be [0, 0, 0, 16] = 16 ∧ u32be [0, 0, 0, 8] = 8 ∧
    u32be [0, 0, 0, 78] = 78 ∧ subnet_3600.lease_time = 3600 ∧
    ¬ (u32be [0, 0, 0, 16] = 3600 ∧ u32be [0, 0, 0, 8] = 1800 ∧
       u32be [0, 0, 0, 78] = 3150) := by
  decide

/-! ## Claim C6 -/

/-- Claim C6 counterexample: a 556-byte buffer whose op field is 0 (neither
1 nor 2) is accepted by parse_message — parsing raises no MalformedHeader
error, contradicting the claim that parsing fails on such headers. -/
theorem parse_message_accepts_op_zero :
    parse_message buf_op0 = .ok msg_op0 ∧ 240 ≤ buf_op0.length ∧
    buf_op0.getD 0 0 = 0 ∧ buf_op0.getD 1 0 = 1 ∧ buf_op0.getD 2 0 = 6 := by
  decide

/-- Claim C6 as amended: the header constraints are enforced by the separate
boolean validate_message, not by parse_message; validate_message is true
exactly when op is 1 or 2, htype is 1, hlen is 6, and a message-type option
(53) of length 1 is present. -/
theorem validate_message_iff (m : DhcpMessage) :
    validate_message m = true ↔
      ((m.header.getD 0 0 = 1 ∨ m.header.getD 0 0 = 2) ∧
        m.header.getD 1 0 = 1 ∧ m.header.getD 2 0 = 6 ∧
        ∃ o, find_option m.options 53 = some o ∧ o.length = 1) := by
  unfold validate_message
  split_ifs with h1 h2 h3
  · simp only [Bool.false_eq_true, false_iff]
    intro hc
    rcases hc.1 with hop | hop
    · exact h1.1 hop
    · exact h1.2 hop
  · simp only [Bool.false_eq_true, false_iff]
    intro hc
    exact h2 hc.2.1
  · simp only [Bool.false_eq_true, false_iff]
    intro hc
    exact h3 hc.2.2.1
  · push_neg at h1
    rcases hf : find_option m.options 53 with _ | o
    · simp only [Bool.false_eq_true, false_iff]
      intro hc
      rcases hc.2.2.2 with ⟨o, ho, _⟩
      cases ho
    · by_cases hlen : o.length ≠ 1
      · simp only [hf, if_pos hlen, Bool.false_eq_true, false_iff]
        intro hc
        rcases hc.2.2.2 with ⟨o', ho', hlen'⟩
        cases ho'
        exact hlen hlen'
      · push_neg at hlen
        simp only [hf, hlen]
        simp only [if_neg (by simp : ¬ (1 : Nat) ≠ 1), true_iff]
        refine ⟨?_, by omega, by omega, o, rfl, hlen⟩
        by_contra hop
        push_neg at hop
        exact absurd (h1 (by omega)) (by omega)

/-! ## Claim C7 -/

/-- Claim C7 counterexample: parsing exactly 240 bytes with a valid BOOTP
fixed header and no cookie at offset 236 fails with the "Message too short"
error (the in-memory header struct is 548 bytes), not with any
missing-cookie error — no MissingCookie error exists in the parser. -/
theorem parse_240_bytes_message_too_short :
    parse_message buf_240 = .error .messageTooShort ∧ buf_240.length = 240 ∧
    buf_240.getD 0 0 = 1 ∧ buf_240.getD 1 0 = 1 ∧ buf_240.getD 2 0 = 6 ∧
    (buf_240.drop 236).take 4 ≠ magic_cookie := by
  decide

/-- Claim C7 as amended: every buffer shorter than the 548-byte in-memory
header struct — a 240-byte packet in particular — fails to parse with the
"Message too short" error; an absent magic cookie is never reported, the
options walk simply does not skip it. -/
theorem parse_message_short_buffer (data : List Nat)
    (h : data.length < header_size) :
    parse_message data = .error .messageTooShort := by
  unfold parse_message
  rw [if_pos h]

/-- Witness for parse_message_short_buffer at a concrete 300-byte buffer. -/
theorem parse_message_short_buffer_witness :
    (List.replicate 300 0).length < header_size ∧
    parse_message (List.replicate 300 0) = .error .messageTooShort :=
  ⟨by decide, parse_message_short_buffer (List.replicate 300 0) (by decide)⟩

/-! ## Claim C4 -/

/-- Claim C4 counterexample: mac_a holds the active lease on htonl 1; an
allocation for mac_a requesting the different, available address htonl 2
returns the existing lease on htonl 1 unchanged — the requested-IP step is
never reached, contradicting the claimed behaviour for a nonzero
requested_ip different from the existing IP. -/
theorem allocate_lease_ignores_different_requested_ip :
    allocate_lease config_3600 store_c4 mac_a (htonl 2) "s" 5 =
      .ok (lease_c4, store_c4) ∧
    lease_c4.ip_address = htonl 1 ∧ htonl 2 ≠ htonl 1 ∧
    is_ip_available config_3600 store_c4 (htonl 2) "s" = some true := by
  decide

/-- Claim C4 as amended: whenever the store holds an active lease for the
requesting MAC, allocate_lease returns that lease with the store unchanged,
for every requested_ip (zero, equal or different). -/
theorem allocate_lease_existing_short_circuit (config : DhcpConfig)
    (st : LeaseStore) (mac : List Nat) (requested_ip : Nat)
    (subnet_name : String) (now : Int) (i : Nat)
    (hi : lookupA st.byMac mac = some i)
    (ha : (st.heap.getD i default_lease).is_active = true) :
    allocate_lease config st mac requested_ip subnet_name now =
      .ok (st.heap.getD i default_lease, st) := by
  unfold allocate_lease
  rw [hi]
  dsimp only
  rw [if_pos ha]

/-- Witness for allocate_lease_existing_short_circuit: mac_a's active lease
on htonl 1 is returned for the unrelated requested ip 7. -/
theorem allocate_lease_existing_short_circuit_witness :
    lookupA store_c4.byMac mac_a = some 0 ∧
    (store_c4.heap.getD 0 default_lease).is_active = true ∧
    allocate_lease config_3600 store_c4 mac_a 7 "s" 99 =
      .ok (store_c4.heap.getD 0 default_lease, store_c4) :=
  ⟨by decide, by decide,
    allocate_lease_existing_short_circuit config_3600 store_c4 mac_a 7 "s" 99 0
      (by decide) (by decide)⟩

/-! ## Claim C10 -/

/-- Claim C10 counterexample: in a generated message the four bytes at
offset 240 are not the magic cookie; the cookie sits at offset 548, after
the full in-memory header image (the packed struct embeds a 312-byte
options field after the 236 fixed bytes). -/
theorem generate_message_cookie_not_at_offset_240 :
    generate_message msg_rt = .ok bytes_rt ∧
    (bytes_rt.drop 240).take 4 ≠ magic_cookie ∧
    (bytes_rt.drop 548).take 4 = magic_cookie := by
  decide

/-- Claim C10 as amended: every generated byte stream is the 548-byte header
image, the magic cookie, then the emitted options; an END option (bytes
255,0) is appended exactly when the option list is empty or does not end in
END. -/
theorem generate_message_layout (m : DhcpMessage) (bs : List Nat)
    (hh : m.header.length = header_size)
    (hg : generate_message m = .ok bs) :
    (bs.drop header_size).take 4 = magic_cookie ∧
    (needs_end_option m.options = true →
      ∃ body, generate_options_loop m.options (header_size + 4) = .ok body ∧
        bs = m.header ++ magic_cookie ++ (body ++ [255, 0])) ∧
    (needs_end_option m.options = false →
      ∃ body, generate_options_loop m.options (header_size + 4) = .ok body ∧
        bs = m.header ++ magic_cookie ++ body) := by
  unfold generate_message at hg
  rcases hgo : generate_options m.options header_size with e | opts
  · rw [hgo] at hg
    cases hg
  · rw [hgo] at hg
    cases hg
    unfold generate_options at hgo
    rcases hloop : generate_options_loop m.options (header_size + 4) with e | body
    · rw [hloop] at hgo
      cases hgo
    · rw [hloop] at hgo
      dsimp only at hgo
      by_cases hend : needs_end_option m.options
      · rw [if_pos hend] at hgo
        by_cases hbig : 1500 < header_size + 4 + emitted_length m.options + 2
        · rw [if_pos hbig] at hgo
          cases hgo
        · rw [if_neg hbig] at hgo
          cases hgo
          refine ⟨?_, fun _ => ⟨body, rfl, by simp⟩, fun hf => by rw [hend] at hf; cases hf⟩
          rw [← hh, List.drop_left]
          rfl
      · rw [if_neg hend] at hgo
        cases hgo
        refine ⟨?_, fun ht => by rw [ht] at hend; exact absurd rfl hend,
          fun _ => ⟨body, rfl, by simp⟩⟩
        rw [← hh, List.drop_left]
        rfl

/-! ## Claim C1: round-trip lemmas -/

theorem emit_all_nil : emit_all [] = [] := rfl

theorem emit_all_cons (o : DhcpOption) (rest : List DhcpOption) :
    emit_all (o :: rest) = generate_option_bytes o ++ emit_all rest := by
  simp [emit_all]

theorem emit_all_append (l1 l2 : List DhcpOption) :
    emit_all (l1 ++ l2) = emit_all l1 ++ emit_all l2 := by
  simp [emit_all]

theorem emitted_length_cons (o : DhcpOption) (rest : List DhcpOption) :
    emitted_length (o :: rest) = 2 + o.length + emitted_length rest := by
  simp [emitted_length]

theorem length_le_emit_all (opts : List DhcpOption) :
    opts.length ≤ (emit_all opts).length := by
  induction opts with
  | nil => simp [emit_all]
  | cons o rest ih =>
    rw [emit_all_cons]
    simp only [List.length_cons, List.length_append]
    have : 1 ≤ (generate_option_bytes o).length := by
      unfold generate_option_bytes
      simp
    omega

theorem generate_options_loop_ok {opts : List DhcpOption} {off : Nat}
    {body : List Nat} (h : generate_options_loop opts off = .ok body) :
    body = emit_all opts := by
  induction opts generalizing off body with
  | nil =>
    cases h
    rfl
  | cons o rest ih =>
    unfold generate_options_loop at h
    by_cases hb : 1500 < off + 2 + o.length
    · rw [if_pos hb] at h
      cases h
    · rw [if_neg hb] at h
      rcases ht : generate_options_loop rest (off + 2 + o.length) with e | tail
      · rw [ht] at h
        cases h
      · rw [ht] at h
        cases h
        rw [emit_all_cons, ih ht]

theorem generate_options_loop_append {l1 l2 : List DhcpOption} {off : Nat}
    {b1 b2 : List Nat} (h1 : generate_options_loop l1 off = .ok b1)
    (h2 : generate_options_loop l2 (off + emitted_length l1) = .ok b2) :
    generate_options_loop (l1 ++ l2) off = .ok (b1 ++ b2) := by
  induction l1 generalizing off b1 with
  | nil =>
    cases h1
    simpa [emitted_length] using h2
  | cons o rest ih =>
    unfold generate_options_loop at h1
    by_cases hb : 1500 < off + 2 + o.length
    · rw [if_pos hb] at h1
      cases h1
    · rw [if_neg hb] at h1
      rcases ht : generate_options_loop rest (off + 2 + o.length) with e | tail
      · rw [ht] at h1
        cases h1
      · rw [ht] at h1
        cases h1
        have h2' : generate_options_loop l2
            (off + 2 + o.length + emitted_length rest) = .ok b2 := by
          rw [emitted_length_cons] at h2
          have : off + 2 + o.length + emitted_length rest =
              off + (2 + o.length + emitted_length rest) := by omega
          rw [this]
          exact h2
        have := ih ht h2'
        rw [List.cons_append]
        unfold generate_options_loop
        rw [if_neg hb, this]
        simp

theorem parse_options_loop_cons (fuel : Nat) (b : Nat) (bs : List Nat) :
    parse_options_loop (fuel + 1) (b :: bs) =
      match parse_option (b :: bs) with
      | none => []
      | some (o, rest) =>
        if o.code = 255 then [o] else o :: parse_options_loop fuel rest := rfl

theorem parse_option_emit (o : DhcpOption) (rest : List Nat)
    (h255 : o.code ≠ 255) (h0 : o.code ≠ 0) (hlen : o.length = o.data.length) :
    parse_option (generate_option_bytes o ++ rest) = some (o, rest) := by
  have hdata : o.data.take o.length = o.data := by
    rw [hlen]
    simp
  have hshow : generate_option_bytes o ++ rest =
      o.code :: o.length :: (o.data ++ rest) := by
    unfold generate_option_bytes
    rw [hdata]
    rfl
  rw [hshow]
  show (if o.code = 255 then
          some ((⟨255, 0, []⟩ : DhcpOption), o.length :: (o.data ++ rest))
        else if o.code = 0 then
          some ((⟨0, 0, []⟩ : DhcpOption), o.length :: (o.data ++ rest))
        else if (o.data ++ rest).length < o.length then none
        else some ((⟨o.code, o.length, (o.data ++ rest).take o.length⟩ : DhcpOption),
          (o.data ++ rest).drop o.length)) = some (o, rest)
  rw [if_neg h255, if_neg h0]
  have hnlt : ¬ (o.data ++ rest).length < o.length := by
    rw [hlen]
    simp
  rw [if_neg hnlt]
  have htake : (o.data ++ rest).take o.length = o.data := by
    rw [hlen]
    exact List.take_left _ _
  have hdrop : (o.data ++ rest).drop o.length = rest := by
    rw [hlen]
    exact List.drop_left _ _
  rw [htake, hdrop]

theorem parse_options_loop_emit (opts : List DhcpOption) (fuel : Nat)
    (hwf : ∀ o ∈ opts, wf_option o ∧ o.code ≠ 255)
    (hfuel : opts.length < fuel) :
    parse_options_loop fuel (emit_all opts ++ [255, 0]) =
      opts ++ [⟨255, 0, []⟩] := by
  induction opts generalizing fuel with
  | nil =>
    rw [emit_all_nil, List.nil_append]
    cases fuel with
    | zero => omega
    | succ f => rfl
  | cons o rest ih =>
    cases fuel with
    | zero => omega
    | succ f =>
      rw [emit_all_cons, List.append_assoc]
      have hw := hwf o (by simp)
      have hne : generate_option_bytes o ++ (emit_all rest ++ [255, 0]) ≠ [] := by
        unfold generate_option_bytes
        simp
      rcases hbytes : generate_option_bytes o ++ (emit_all rest ++ [255, 0]) with
          _ | ⟨b, bs⟩
      · exact absurd hbytes hne
      · have hpo := parse_option_emit o (emit_all rest ++ [255, 0]) hw.2
          hw.1.2.1 hw.1.2.2.1
        rw [hbytes] at hpo
        rw [parse_options_loop_cons, hpo]
        dsimp only
        rw [if_neg hw.2]
        rw [ih f (fun x hx => hwf x (by simp [hx])) (by simpa using hfuel)]
        rfl

theorem parse_message_fields {data : List Nat} {m' : DhcpMessage}
    (h : parse_message data = .ok m') :
    m'.header = data.take header_size ∧ m'.options = parse_options data := by
  unfold parse_message at h
  by_cases hlen : data.length < header_size
  · rw [if_pos hlen] at h
    cases h
  · rw [if_neg hlen] at h
    dsimp only at h
    rcases hf : find_option (parse_options data) 53 with _ | o
    · rw [hf] at h
      cases h
    · rw [hf] at h
      dsimp only at h
      by_cases hl : o.length = 1
      · rw [if_pos hl] at h
        cases h
        exact ⟨rfl, rfl⟩
      · rw [if_neg hl] at h
        cases h

theorem parse_options_generated (hdr body : List Nat)
    (hh : hdr.length = header_size) :
    parse_options (hdr ++ (magic_cookie ++ body)) =
      parse_options_loop (body.length + 1) body := by
  unfold parse_options
  have hlen : ¬ (hdr ++ (magic_cookie ++ body)).length < header_size := by
    simp only [List.length_append]
    omega
  rw [if_neg hlen]
  have hdrop : (hdr ++ (magic_cookie ++ body)).drop header_size =
      magic_cookie ++ body := by
    rw [← hh]
    exact List.drop_left _ _
  dsimp only
  rw [hdrop]
  have htake : (magic_cookie ++ body).take 4 = magic_cookie := rfl
  rw [if_pos htake]
  have hdrop4 : (magic_cookie ++ body).drop 4 = body := rfl
  rw [hdrop4]

/-- Generation depends only on the header and options fields. -/
theorem generate_message_congr (m m' : DhcpMessage)
    (hh : m'.header = m.header) (ho : m'.options = m.options) :
    generate_message m' = generate_message m := by
  unfold generate_message
  rw [hh, ho]

theorem needs_end_all_ne (opts : List DhcpOption)
    (hend : needs_end_option opts = true)
    (hdrop : ∀ o ∈ opts.dropLast, o.code ≠ 255) :
    ∀ o ∈ opts, o.code ≠ 255 := by
  intro o ho
  by_cases hnil : opts = []
  · rw [hnil] at ho
    simp at ho
  · have hdl := List.dropLast_append_getLast hnil
    rw [← hdl] at ho
    rcases List.mem_append.mp ho with h1 | h1
    · exact hdrop o h1
    · have he : o = opts.getLast hnil := by simpa using h1
      subst he
      unfold needs_end_option at hend
      rw [List.getLast?_eq_getLast _ hnil] at hend
      simpa using hend

/-- Claim C1 counterexample: msg_pad is accepted by the parser (its
generated bytes parse back successfully), yet regenerating the reparsed
message yields a different byte stream — the PAD option is emitted as the
two bytes 0,0 but parsed back as two separate PAD options, each re-emitted
as two bytes. -/
theorem generate_parse_generate_pad_mismatch :
    generate_message msg_pad = .ok bytes_pad ∧
    parse_message bytes_pad = .ok msg_pad_reparsed ∧
    generate_message msg_pad_reparsed = .ok bytes_pad_regen ∧
    bytes_pad_regen ≠ bytes_pad := by
  decide

/-- Claim C1 as amended: for every message whose options contain no PAD,
contain END only as a possible final element of zero length, and are
byte-well-formed (code and length are bytes, length = data size, full-size
header image), if generation succeeds and the generated bytes parse, then
regenerating the parsed message reproduces the byte stream exactly. -/
theorem generate_parse_generate (m m' : DhcpMessage) (bs : List Nat)
    (hwf : wf_message m)
    (hgen : generate_message m = .ok bs)
    (hparse : parse_message bs = .ok m') :
    generate_message m' = .ok bs := by
  obtain ⟨hh, hwfo, hnotend, hendlen⟩ := hwf
  unfold generate_message at hgen
  rcases hgo : generate_options m.options header_size with e | opts
  · rw [hgo] at hgen
    cases hgen
  · rw [hgo] at hgen
    cases hgen
    unfold generate_options at hgo
    rcases hloop : generate_options_loop m.options (header_size + 4) with e | body
    · rw [hloop] at hgo
      cases hgo
    · rw [hloop] at hgo
      dsimp only at hgo
      have hbody : body = emit_all m.options := generate_options_loop_ok hloop
      obtain ⟨hmh, hmo⟩ := parse_message_fields hparse
      by_cases hend : needs_end_option m.options = true
      · -- END appended by the generator
        rw [if_pos hend] at hgo
        by_cases hbig : 1500 < header_size + 4 + emitted_length m.options + 2
        · rw [if_pos hbig] at hgo
          cases hgo
        · rw [if_neg hbig] at hgo
          cases hgo
          have hmh' : m'.header = m.header := by
            rw [hmh, ← hh]
            exact List.take_left _ _
          have hassoc : m.header ++ (magic_cookie ++ body ++ [255, 0]) =
              m.header ++ (magic_cookie ++ (body ++ [255, 0])) := by
            simp
          have hall255 : ∀ o ∈ m.options, o.code ≠ 255 :=
            needs_end_all_ne m.options hend hnotend
          have hfuel : m.options.length < (body ++ [255, 0]).length + 1 := by
            have h1 := length_le_emit_all m.options
            rw [hbody]
            simp only [List.length_append]
            omega
          have hmo' : m'.options = m.options ++ [⟨255, 0, []⟩] := by
            rw [hmo, hassoc, parse_options_generated m.header (body ++ [255, 0]) hh,
              hbody]
            exact parse_options_loop_emit m.options _
              (fun o ho => ⟨hwfo o ho, hall255 o ho⟩) (by rw [← hbody]; exact hfuel)
          have hloopEnd : generate_options_loop [(⟨255, 0, []⟩ : DhcpOption)]
              (header_size + 4 + emitted_length m.options) = .ok [255, 0] := by
            unfold generate_options_loop
            rw [if_neg (by dsimp only; omega)]
            rfl
          have hloop' : generate_options_loop (m.options ++ [⟨255, 0, []⟩])
              (header_size + 4) = .ok (body ++ [255, 0]) :=
            generate_options_loop_append hloop hloopEnd
          have hopts' : generate_options m'.options header_size =
              .ok (magic_cookie ++ body ++ [255, 0]) := by
            unfold generate_options
            rw [hmo', hloop']
            dsimp only
            rw [if_neg (by
              unfold needs_end_option
              rw [List.getLast?_concat]
              simp)]
            simp
          unfold generate_message
          rw [hopts', hmh']
      · -- options already end in END
        rw [if_neg hend] at hgo
        cases hgo
        have hmh' : m'.header = m.header := by
          rw [hmh, ← hh]
          exact List.take_left _ _
        have hnil : m.options ≠ [] := by
          intro hc
          rw [hc] at hend
          exact hend rfl
        have hdl := List.dropLast_append_getLast hnil
        have hlast : m.options.getLast hnil = ⟨255, 0, []⟩ := by
          have hmem : m.options.getLast hnil ∈ m.options := List.getLast_mem hnil
          have hcode : (m.options.getLast hnil).code = 255 := by
            unfold needs_end_option at hend
            rw [List.getLast?_eq_getLast _ hnil] at hend
            by_contra hc
            exact hend (by simpa using hc)
          have hlen0 : (m.options.getLast hnil).length = 0 :=
            hendlen _ hmem hcode
          have hdata0 : (m.options.getLast hnil).data = [] := by
            have hwl := (hwfo _ hmem).2.2.1
            rw [hlen0] at hwl
            exact (List.length_eq_zero.mp hwl.symm)
          cases hgl : m.options.getLast hnil with
          | mk c l d =>
            rw [hgl] at hcode hlen0 hdata0
            simp only at hcode hlen0 hdata0
            rw [hcode, hlen0, hdata0]
        have hemit : emit_all m.options = emit_all m.options.dropLast ++ [255, 0] := by
          conv_lhs => rw [← hdl]
          rw [emit_all_append, hlast]
          rfl
        have hfuel : m.options.dropLast.length < body.length + 1 := by
          have h1 := length_le_emit_all m.options.dropLast
          rw [hbody, hemit]
          simp only [List.length_append]
          omega
        have hmo' : m'.options = m.options := by
          rw [hmo, parse_options_generated m.header body hh, hbody, hemit]
          rw [parse_options_loop_emit m.options.dropLast _
            (fun o ho => ⟨hwfo o ((List.dropLast_sublist m.options).subset ho),
              hnotend o ho⟩)
            (by rw [← hemit, ← hbody]; exact hfuel)]
          rw [← hlast, hdl]
        have hgen2 : generate_message m = .ok (m.header ++ (magic_cookie ++ body)) := by
          unfold generate_message generate_options
          rw [hloop]
          dsimp only
          rw [if_neg hend]
        rw [generate_message_congr m m' hmh' hmo']
        exact hgen2

/-- Witness for generate_parse_generate at msg_rt. -/
theorem generate_parse_generate_witness :
    wf_message msg_rt ∧ generate_message msg_rt = .ok bytes_rt ∧
    parse_message bytes_rt = .ok msg_rt_reparsed ∧
    generate_message msg_rt_reparsed = .ok bytes_rt :=
  ⟨by decide, by decide, by decide,
    generate_parse_generate msg_rt msg_rt_reparsed bytes_rt (by decide)
      (by decide) (by decide)⟩

/-! ## Claim C8 -/

/-- Claim C8 counterexample: the enabled, unexpired, exactly-matching rule
rule_exact (1 request per 10 s) is ignored because rule selection stops at
the first enabled matching rule — here the expired wildcard rule — and an
expired selected rule allows the request.  The tracker already holds one
timestamp (5) inside rule_exact's window at now = 10, so under the claim
the check would have to be denied; the code allows it. -/
theorem check_rate_limit_shadowed_by_expired_rule :
    (check_rate_limit sec_state_c8 "aa" "mac" 10).1 = true ∧
    sec_state_c8.rate_limit_rules = [rule_wild_expired, rule_exact] ∧
    rule_exact.enabled = true ∧ ¬ rule_exact.expires < 10 ∧
    rule_exact.identifier = "aa" ∧ rule_exact.identifier_type = "mac" ∧
    rule_wild_expired.expires < 10 ∧
    lookupA sec_state_c8.rate_limit_trackers "mac:aa" = some [5] ∧
    rule_exact.max_requests ≤
      ([5] : List Int).countP (fun t => 10 - rule_exact.time_window ≤ t) := by
  decide

/-- Claim C8 as amended: rate limiting is governed by the first enabled rule
whose type matches and whose identifier is the given one or "*"; when that
rule is unexpired, the check is denied exactly when the timestamps retained
in the sliding window (those not strictly older than now - time_window)
already number at least max_requests — so after a gap strictly longer than
time_window the window is empty and a positive max_requests admits the next
request. -/
theorem check_rate_limit_window (st : SecurityState) (identifier : String)
    (identifier_type : String) (now : Int) (rule : RateLimitRule)
    (hrule : st.rate_limit_rules.find? (fun r =>
        r.enabled ∧ r.identifier_type = identifier_type ∧
          (r.identifier = identifier ∨ r.identifier = "*")) = some rule)
    (hexp : ¬ rule.expires < now) :
    ((check_rate_limit st identifier identifier_type now).1 = false ↔
      rule.max_requests ≤
        (((lookupA st.rate_limit_trackers
            (identifier_type ++ ":" ++ identifier)).getD []).countP
          (fun t => now - rule.time_window ≤ t))) ∧
    ((∀ t ∈ (lookupA st.rate_limit_trackers
        (identifier_type ++ ":" ++ identifier)).getD [],
        t < now - rule.time_window) →
      0 < rule.max_requests →
      (check_rate_limit st identifier identifier_type now).1 = true) := by
  have hcount : ∀ l : List Int,
      (l.filter (fun t => ¬ t < now - rule.time_window)).length =
        l.countP (fun t => now - rule.time_window ≤ t) := by
    intro l
    rw [List.countP_eq_length_filter]
    congr 1
    apply List.filter_congr
    intro t _
    simp only [decide_eq_decide]
    omega
  unfold check_rate_limit
  rw [hrule]
  dsimp only
  rw [if_neg hexp]
  constructor
  · by_cases hge : rule.max_requests ≤
        (((lookupA st.rate_limit_trackers
            (identifier_type ++ ":" ++ identifier)).getD []).filter
          (fun t => ¬ t < now - rule.time_window)).length
    · rw [if_pos hge]
      simp only [true_iff]
      rw [← hcount]
      exact hge
    · rw [if_neg hge]
      simp only [Bool.true_eq_false, false_iff]
      rw [← hcount]
      exact hge
  · intro hall hpos
    have hempty : (((lookupA st.rate_limit_trackers
        (identifier_type ++ ":" ++ identifier)).getD []).filter
        (fun t => ¬ t < now - rule.time_window)) = [] := by
      rw [List.filter_eq_nil_iff]
      intro t ht
      simp only [decide_eq_true_eq, Decidable.not_not]
      simpa using hall t ht
    rw [if_neg (by rw [hempty]; simp only [List.length_nil]; omega)]

/-- Witness for check_rate_limit_window: the single rule of sec_state_c8w
(2 per 30 s) with one stale and one fresh timestamp at now = 40. -/
theorem check_rate_limit_window_witness :
    sec_state_c8w.rate_limit_rules.find? (fun r =>
        r.enabled ∧ r.identifier_type = "ip" ∧
          (r.identifier = "bb" ∨ r.identifier = "*")) =
      some (sec_state_c8w.rate_limit_rules.getD 0 rule_exact) ∧
    ¬ (sec_state_c8w.rate_limit_rules.getD 0 rule_exact).expires < 40 ∧
    (((check_rate_limit sec_state_c8w "bb" "ip" 40).1 = false ↔
      (sec_state_c8w.rate_limit_rules.getD 0 rule_exact).max_requests ≤
        (((lookupA sec_state_c8w.rate_limit_trackers ("ip" ++ ":" ++ "bb")).getD
            []).countP
          (fun t => 40 -
            (sec_state_c8w.rate_limit_rules.getD 0 rule_exact).time_window ≤ t))) ∧
    ((∀ t ∈ (lookupA sec_state_c8w.rate_limit_trackers
        ("ip" ++ ":" ++ "bb")).getD [],
        t < 40 - (sec_state_c8w.rate_limit_rules.getD 0 rule_exact).time_window) →
      0 < (sec_state_c8w.rate_limit_rules.getD 0 rule_exact).max_requests →
      (check_rate_limit sec_state_c8w "bb" "ip" 40).1 = true)) :=
  ⟨by decide, by decide,
    check_rate_limit_window sec_state_c8w "bb" "ip" 40
      (sec_state_c8w.rate_limit_rules.getD 0 rule_exact) (by decide) (by decide)⟩

/-! ## Claim C9 -/

theorem hex_char_inj {a b : Nat} (ha : a < 16) (hb : b < 16)
    (h : hex_char a = hex_char b) : a = b := by
  unfold hex_char at h
  split_ifs at h <;> omega

theorem hex_encode_length (l : List Nat) :
    (hex_encode l).length = 2 * l.length := by
  induction l with
  | nil => rfl
  | cons x xs ih =>
    show (hex_encode xs).length + 1 + 1 = _
    rw [ih]
    simp
    omega

theorem hex_encode_inj {a b : List Nat} (ha : ∀ x ∈ a, x < 256)
    (hb : ∀ x ∈ b, x < 256) (h : hex_encode a = hex_encode b) : a = b := by
  induction a generalizing b with
  | nil =>
    cases b with
    | nil => rfl
    | cons y ys => cases h
  | cons x xs ih =>
    cases b with
    | nil => cases h
    | cons y ys =>
      have hx : x < 256 := ha x (by simp)
      have hy : y < 256 := hb y (by simp)
      unfold hex_encode at h
      injection h with h1 h2
      injection h2 with h2 h3
      have e1 : x / 16 % 16 = y / 16 % 16 :=
        hex_char_inj (by omega) (by omega) h1
      have e2 : x % 16 = y % 16 := hex_char_inj (by omega) (by omega) h2
      have hxy : x = y := by omega
      rw [hxy, ih (fun z hz => ha z (by simp [hz])) (fun z hz => hb z (by simp [hz])) h3]

/-- The comparison performed by validate_auth_hash, provided the key is
non-empty: 32 raw bytes match iff they equal the digest, anything else
matches iff its lowercased text equals the digest's hex rendering. -/
theorem validate_auth_hash_iff (hmac : String → String → List Nat)
    (key : String) (client_mac : String) (auth_data : List Nat) (ts : Int)
    (hkey : key ≠ "")
    (hlen : ∀ k m, (hmac k m).length = 32)
    (hbytes : ∀ k m, ∀ b ∈ hmac k m, b < 256)
    (hdata : ∀ b ∈ auth_data, b < 256) :
    validate_auth_hash hmac key client_mac auth_data ts = true ↔
      ((auth_data.length = 32 ∧
         auth_data = hmac key (client_mac ++ ":" ++ toString ts)) ∨
       (auth_data.length ≠ 32 ∧
         to_lower_ascii auth_data =
           hex_encode (hmac key (client_mac ++ ":" ++ toString ts)))) := by
  unfold validate_auth_hash generate_auth_hash
  rw [if_neg hkey, if_neg hkey]
  have hne : hex_encode (hmac key (client_mac ++ ":" ++ toString ts)) ≠ [] := by
    intro hc
    have hl := hex_encode_length (hmac key (client_mac ++ ":" ++ toString ts))
    rw [hc, hlen key (client_mac ++ ":" ++ toString ts)] at hl
    simp at hl
  rw [if_neg hne]
  by_cases h32 : auth_data.length = 32
  · rw [if_pos h32]
    simp only [decide_eq_true_eq]
    constructor
    · intro h
      exact Or.inl ⟨h32, hex_encode_inj hdata (hbytes _ _) h⟩
    · intro h
      rcases h with ⟨_, he⟩ | ⟨hne32, _⟩
      · rw [he]
      · exact absurd h32 hne32
  · rw [if_neg h32]
    simp only [decide_eq_true_eq]
    constructor
    · intro h
      exact Or.inr ⟨h32, h⟩
    · intro h
      rcases h with ⟨h32', _⟩ | ⟨_, he⟩
      · exact absurd h32' h32
      · exact he

/-- Claim C9: when authentication is enabled, the MAC has enabled unexpired
credentials and a pre-shared key is configured, client authentication
succeeds if and only if the provided data — 32 raw digest bytes, or hex
text — equals the HMAC-SHA256 (an external OpenSSL call, passed as hmac) of
client_mac ++ ":" ++ seconds at one of the offsets -60, 0, +60 from now. -/
theorem validate_client_authentication_iff
    (hmac : String → String → List Nat) (st : SecurityState)
    (client_mac : String) (auth_data : List Nat) (now : Int)
    (credentials : ClientCredentials)
    (hen : st.authentication_enabled = true)
    (hcred : lookupA st.client_credentials client_mac = some credentials)
    (hce : credentials.enabled = true)
    (hcx : ¬ credentials.expires < now)
    (hkey : st.authentication_key ≠ "")
    (hlen : ∀ k m, (hmac k m).length = 32)
    (hbytes : ∀ k m, ∀ b ∈ hmac k m, b < 256)
    (hdata : ∀ b ∈ auth_data, b < 256) :
    validate_client_authentication hmac st client_mac auth_data now = true ↔
      ∃ offset ∈ ([-60, 0, 60] : List Int),
        ((auth_data.length = 32 ∧
           auth_data = hmac st.authentication_key
             (client_mac ++ ":" ++ toString (now + offset))) ∨
         (auth_data.length ≠ 32 ∧
           to_lower_ascii auth_data =
             hex_encode (hmac st.authentication_key
               (client_mac ++ ":" ++ toString (now + offset))))) := by
  unfold validate_client_authentication
  rw [hcred]
  dsimp only
  rw [if_neg (by rw [hen]; simp), if_neg (by rw [hce]; simp), if_neg hcx]
  by_cases hemp : auth_data = []
  · rw [if_pos hemp]
    simp only [Bool.false_eq_true, false_iff]
    intro hc
    rcases hc with ⟨offset, _, ⟨h32, _⟩ | ⟨_, he⟩⟩
    · rw [hemp] at h32
      simp at h32
    · rw [hemp] at he
      have hne : hex_encode (hmac st.authentication_key
          (client_mac ++ ":" ++ toString (now + offset))) ≠ [] := by
        intro hc2
        have hl := hex_encode_length (hmac st.authentication_key
          (client_mac ++ ":" ++ toString (now + offset)))
        rw [hc2, hlen] at hl
        simp at hl
      exact hne (by rw [← he]; rfl)
  · rw [if_neg hemp]
    rw [List.any_eq_true]
    constructor
    · intro h
      rcases h with ⟨offset, hmem, hv⟩
      refine ⟨offset, ?_, (validate_auth_hash_iff hmac st.authentication_key
        client_mac auth_data (now + offset) hkey hlen hbytes hdata).mp hv⟩
      simp only [List.mem_cons, List.mem_nil_iff, or_false] at hmem ⊢
      omega
    · intro h
      rcases h with ⟨offset, hmem, hv⟩
      refine ⟨offset, ?_, (validate_auth_hash_iff hmac st.authentication_key
        client_mac auth_data (now + offset) hkey hlen hbytes hdata).mpr hv⟩
      simp only [List.mem_cons, List.mem_nil_iff, or_false] at hmem ⊢
      omega

/-- Witness for validate_client_authentication_iff with the constant
32-byte external digest function hmac_const. -/
theorem validate_client_authentication_iff_witness :
    sec_state_c9.authentication_enabled = true ∧
    lookupA sec_state_c9.client_credentials "00:11:22:33:44:55" =
      some credentials_ok ∧
    credentials_ok.enabled = true ∧ ¬ credentials_ok.expires < 1000 ∧
    sec_state_c9.authentication_key ≠ "" ∧
    (validate_client_authentication hmac_const sec_state_c9 "00:11:22:33:44:55"
        [7] 1000 = true ↔
      ∃ offset ∈ ([-60, 0, 60] : List Int),
        ((([7] : List Nat).length = 32 ∧
           [7] = hmac_const sec_state_c9.authentication_key
             ("00:11:22:33:44:55" ++ ":" ++ toString ((1000 : Int) + offset))) ∨
         (([7] : List Nat).length ≠ 32 ∧
           to_lower_ascii [7] =
             hex_encode (hmac_const sec_state_c9.authentication_key
               ("00:11:22:33:44:55" ++ ":" ++ toString ((1000 : Int) + offset)))))) :=
  ⟨rfl, by decide, rfl, by decide, by decide,
    validate_client_authentication_iff hmac_const sec_state_c9
      "00:11:22:33:44:55" [7] 1000 credentials_ok rfl (by decide) rfl (by decide)
      (by decide) (fun _ _ => rfl) (fun _ _ b hb => by
        unfold hmac_const at hb
        exact lt_of_lt_of_le (List.mem_range.mp hb) (by norm_num))
      (fun b hb => by
        simp only [List.mem_singleton] at hb
        omega)⟩

/-- Witness for generate_message_layout at msg_rt, whose options do not end
in END. -/
theorem generate_message_layout_witness :
    msg_rt.header.length = header_size ∧
    generate_message msg_rt = .ok bytes_rt ∧
    ((bytes_rt.drop header_size).take 4 = magic_cookie ∧
      (needs_end_option msg_rt.options = true →
        ∃ body, generate_options_loop msg_rt.options (header_size + 4) = .ok body ∧
          bytes_rt = msg_rt.header ++ magic_cookie ++ (body ++ [255, 0])) ∧
      (needs_end_option msg_rt.options = false →
        ∃ body, generate_options_loop msg_rt.options (header_size + 4) = .ok body ∧
          bytes_rt = msg_rt.header ++ magic_cookie ++ body)) :=
  ⟨by decide, by decide,
    generate_message_layout msg_rt bytes_rt (by decide) (by decide)⟩

end SimpleDhcpd
